import Mathlib

/-!
# N-body simulation core (`src/N-body/logic.cpp`, `src/N-body/logic.h`)

Shallow embedding of the simulation engine: the particle buffers, the force
integrator `Logic::updateParticles`, the picking routine `Logic::findParticle`,
the interaction handler `Logic::processMessages`, `Logic::swapBuffers` and one
iteration of `Logic::run`.

Modelling conventions.

* `double` values are elements of an arbitrary linearly ordered field `F`
  (exact arithmetic: rounding, infinities and NaN are not modelled), and
  `std::sqrt` is a function `sqrt : F → F` passed explicitly.  Theorems that
  need `sqrt` to be the square root assume `IsSqrt sqrt`; the real numbers with
  `Real.sqrt` satisfy it.  All definitions are computable and can be run on
  `ℚ` with any executable `sqrt`.
* `std::vector<Particle>` is `List (Particle F)`; loop counters and indices are
  natural numbers (buffers are assumed shorter than `2 ^ 32`, the range of the
  `unsigned` loop counters).
* `std::size_t dragged` is a natural number; the sentinel `-1` stored by the
  constructor and by `Release` is `2 ^ 64 - 1`.
* `int` message coordinates are integers, converted to `F` by the cast.
* the lock-free queue is the list of messages popped in one call of
  `processMessages` (one batch per loop iteration).
-/

namespace NBody

variable {F : Type} [LinearOrderedField F]

/-! ## Data model (`logic.h`) -/

/-- Particle of `logic.h`: position `(x, y)` and velocity `(vx, vy)`. -/
structure Particle (F : Type) where
  x : F
  y : F
  vx : F
  vy : F
deriving DecidableEq

/-- Constant `Particle::Radius = 7` (`logic.cpp` line 9). -/
def Particle.Radius : F := 7

/-- Enumeration `Message::Type` of `logic.h`, in declaration order. -/
inductive MessageType where
  | Click
  | Drag
  | Move
  | Release
  | Stop
  | Resize
  | Error
deriving DecidableEq

/-- Record `Message` of `logic.h`: a kind and two `int` coordinates. -/
structure Message where
  type : MessageType
  x : Int
  y : Int
deriving DecidableEq

/-- Default constructor `Message()` of `logic.h`: kind `Error`, coordinates `-1`. -/
def Message.default : Message := ⟨MessageType.Error, -1, -1⟩

/-- Value `std::size_t(-1)` that `dragged` holds when no particle is dragged. -/
def draggedNone : Nat := 2 ^ 64 - 1

/-- Simulation state of class `Logic`: the two buffers, the domain and the
dragged index.  The message queue is passed to `processMessages` as a list. -/
structure Logic (F : Type) where
  readBuffer : List (Particle F)
  writeBuffer : List (Particle F)
  width : F
  height : F
  dragged : Nat

/-- Constant `Logic::dt = 0.03` (`logic.cpp` line 11). -/
def Logic.dt : F := 3 / 100

/-- Literal `1e-6` of `logic.cpp` line 70. -/
def minDistance : F := 1 / 1000000

/-- Hypothesis that `sqrt` is the square root on the non-negative elements. -/
def IsSqrt (sqrt : F → F) : Prop :=
  ∀ s : F, 0 ≤ s → 0 ≤ sqrt s ∧ sqrt s * sqrt s = s

/-- Constructor `Logic::Logic(N)`: two buffers of `N` value-initialised
particles and `dragged = -1`; width and height are set later by `start`. -/
def Logic.new (N : Nat) : Logic F :=
  { readBuffer := List.replicate N ⟨0, 0, 0, 0⟩
    writeBuffer := List.replicate N ⟨0, 0, 0, 0⟩
    width := 0
    height := 0
    dragged := draggedNone }

/-- Assertions of `Logic::start` (`logic.cpp` lines 26-27). -/
def startPrecondition (width height : F) : Prop :=
  width > Particle.Radius ∧ height > Particle.Radius

/-! ## Force integrator (`Logic::updateParticles`, lines 49-100) -/

/-- Body of the inner loop, lines 66-73: the pair `(dx/(r*r) - dx/(r*r*r),
dy/(r*r) - dy/(r*r*r))` added to `(ax, ay)` for the pair `p1`, `p2`. -/
def forceTerm (sqrt : F → F) (p1 p2 : Particle F) : F × F :=
  let dx := p2.x - p1.x
  let dy := p2.y - p1.y
  let r := sqrt (dx * dx + dy * dy)
  let r := max r minDistance
  (dx / (r * r) - dx / (r * r * r), dy / (r * r) - dy / (r * r * r))

/-- One pass of the inner loop (lines 61-74) for the index `j`: skipped when
`j == dragged` or `i == j`, otherwise the force term of `readBuffer->at(j)` is
added to the accumulator `(ax, ay)`. -/
def accelStep (sqrt : F → F) (read : List (Particle F)) (dragged i : Nat)
    (p1 : Particle F) (a : F × F) (j : Nat) : F × F :=
  if j = dragged then a
  else if i = j then a
  else
    match read[j]? with
    | none => a
    | some p2 =>
      let t := forceTerm sqrt p1 p2
      (a.1 + t.1, a.2 + t.2)

/-- Inner loop of `updateParticles` (lines 58-74): the acceleration `(ax, ay)`
accumulated for particle `i`, starting from `(0, 0)`, for `j = 0 .. size-1`. -/
def accel (sqrt : F → F) (read : List (Particle F)) (dragged i : Nat)
    (p1 : Particle F) : F × F :=
  (List.range read.length).foldl (accelStep sqrt read dragged i p1) (0, 0)

/-- Body of the outer loop (lines 53-98): the particle stored at index `i` of
the write buffer, computed from `p1 = readBuffer->at(i)`. -/
def integrate (sqrt : F → F) (read : List (Particle F)) (width height : F)
    (dragged i : Nat) (p1 : Particle F) : Particle F :=
  if i ≠ dragged then
    let a := accel sqrt read dragged i p1
    let x := p1.x + Logic.dt * p1.vx
    let vx := p1.vx + Logic.dt * a.1
    let vx := if x < Particle.Radius ∨ x > width - Particle.Radius then vx * -1 else vx
    let x := min (max x Particle.Radius) (width - Particle.Radius)
    let y := p1.y + Logic.dt * p1.vy
    let vy := p1.vy + Logic.dt * a.2
    let vy := if y < Particle.Radius ∨ y > height - Particle.Radius then vy * -1 else vy
    let y := min (max y Particle.Radius) (height - Particle.Radius)
    ⟨x, y, vx, vy⟩
  else
    ⟨p1.x, p1.y, 0, 0⟩

/-- One pass of the outer loop for the index `i`: `(*writeBuffer)[i] = ...`. -/
def updateStep (sqrt : F → F) (s : Logic F) (w : List (Particle F)) (i : Nat) :
    List (Particle F) :=
  match s.readBuffer[i]? with
  | none => w
  | some p1 => w.set i (integrate sqrt s.readBuffer s.width s.height s.dragged i p1)

/-- Function `Logic::updateParticles`: for `i = 0 .. readBuffer->size()-1` the
write buffer receives at index `i` the integrated particle. -/
def updateParticles (sqrt : F → F) (s : Logic F) : Logic F :=
  { s with
    writeBuffer := (List.range s.readBuffer.length).foldl (updateStep sqrt s) s.writeBuffer }

/-! ## Picking (`Logic::findParticle`, lines 102-115) -/

/-- Loop of `findParticle` from the counter value `i` over the rest of the
write buffer: stops at the first particle with `r <= Particle::Radius`. -/
def findParticleFrom (sqrt : F → F) (x y : Int) : List (Particle F) → Nat → Nat
  | [], i => i
  | p :: ps, i =>
    let dx := p.x - (x : F)
    let dy := p.y - (y : F)
    let r := sqrt (dx * dx + dy * dy)
    if r ≤ Particle.Radius then i else findParticleFrom sqrt x y ps (i + 1)

/-- Function `Logic::findParticle(x, y)`: scan of the write buffer from index 0. -/
def findParticle (sqrt : F → F) (s : Logic F) (x y : Int) : Nat :=
  findParticleFrom sqrt x y s.writeBuffer 0

/-! ## Interaction handler (`Logic::processMessages`, lines 117-192) -/

/-- Outcome of `processMessages`: it returned `stop` (`true` after a `Stop`,
`false` when the queue is drained) in state `s`, or called `std::exit(1)`. -/
inductive Outcome (F : Type) where
  | returned (stop : Bool) (s : Logic F)
  | exited

/-- Outcome of one pass of the `switch` of `processMessages`. -/
inductive Handled (F : Type) where
  | next (s : Logic F)
  | stop (s : Logic F)
  | exit

/-- Statement `switch (m.type)` of `processMessages` for one popped message. -/
def handleMessage (sqrt : F → F) (s : Logic F) (m : Message) : Handled F :=
  match m.type with
  | MessageType.Click =>
    let i := findParticle sqrt s m.x m.y
    if i < s.writeBuffer.length then
      Handled.next { s with writeBuffer := s.writeBuffer.eraseIdx i }
    else
      Handled.next { s with writeBuffer := s.writeBuffer ++ [⟨(m.x : F), (m.y : F), 0, 0⟩] }
  | MessageType.Drag =>
    let i := findParticle sqrt s m.x m.y
    if i < s.writeBuffer.length then
      Handled.next { s with dragged := i }
    else
      Handled.next s
  | MessageType.Move =>
    if s.dragged < s.writeBuffer.length then
      Handled.next { s with writeBuffer := s.writeBuffer.set s.dragged ⟨(m.x : F), (m.y : F), 0, 0⟩ }
    else
      Handled.next s
  | MessageType.Release =>
    if s.dragged < s.writeBuffer.length then
      Handled.next
        { s with
          writeBuffer := s.writeBuffer.set s.dragged ⟨(m.x : F), (m.y : F), 0, 0⟩
          dragged := draggedNone }
    else
      Handled.next { s with dragged := draggedNone }
  | MessageType.Resize =>
    Handled.next { s with width := (m.x : F), height := (m.y : F) }
  | MessageType.Stop => Handled.stop s
  | MessageType.Error => Handled.exit

/-- Function `Logic::processMessages` on the batch of messages the queue
delivers: every message is handled in order until the batch is drained
(`false`), a `Stop` is met (`true`) or the default branch exits. -/
def processMessages (sqrt : F → F) : Logic F → List Message → Outcome F
  | s, [] => Outcome.returned false s
  | s, m :: ms =>
    match handleMessage sqrt s m with
    | Handled.next s' => processMessages sqrt s' ms
    | Handled.stop s' => Outcome.returned true s'
    | Handled.exit => Outcome.exited

/-! ## Simulation loop (`Logic::swapBuffers`, `Logic::run`, lines 194-215) -/

/-- Call `std::vector::resize(n)`: truncation to `n` elements, or padding with
value-initialised particles. -/
def resize (n : Nat) (w : List (Particle F)) : List (Particle F) :=
  w.take n ++ List.replicate (n - w.length) ⟨0, 0, 0, 0⟩

/-- Line 204, step (1) of the loop: `writeBuffer->resize(readBuffer->size())`. -/
def resizeWrite (s : Logic F) : Logic F :=
  { s with writeBuffer := resize s.readBuffer.length s.writeBuffer }

/-- Function `Logic::swapBuffers`: the two buffer pointers are exchanged. -/
def swapBuffers (s : Logic F) : Logic F :=
  { s with readBuffer := s.writeBuffer, writeBuffer := s.readBuffer }

/-- Outcome of one iteration of the loop of `run`. -/
inductive Iteration (F : Type) where
  | swapped (s : Logic F)
  | returned (s : Logic F)
  | exited

/-- One iteration of the loop of `Logic::run` (lines 204-210) with the batch of
messages popped by its `processMessages` call. -/
def runIteration (sqrt : F → F) (s : Logic F) (batch : List Message) : Iteration F :=
  match processMessages sqrt (updateParticles sqrt (resizeWrite s)) batch with
  | Outcome.returned true s' => Iteration.returned s'
  | Outcome.returned false s' => Iteration.swapped (swapBuffers s')
  | Outcome.exited => Iteration.exited

/-- Loop of `Logic::run` over the successive batches of messages; when the
batches are used up the loop is still running (`swapped`). -/
def run (sqrt : F → F) : Logic F → List (List Message) → Iteration F
  | s, [] => Iteration.swapped s
  | s, batch :: rest =>
    match runIteration sqrt s batch with
    | Iteration.swapped s' => run sqrt s' rest
    | Iteration.returned s' => Iteration.returned s'
    | Iteration.exited => Iteration.exited


/-! ## Specification-side definitions -/

/-- Force law in the words of the specification: `d / r^2 - d / r^3` on each
axis with `d = position(j) - position(i)` and `r = max(|d|, 1e-6)`, where
`|d| = sqrt (dx^2 + dy^2)`. -/
def specForce (sqrt : F → F) (pi pj : Particle F) : F × F :=
  let dx := pj.x - pi.x
  let dy := pj.y - pi.y
  let r := max (sqrt (dx ^ 2 + dy ^ 2)) (1 / 10 ^ 6)
  (dx / r ^ 2 - dx / r ^ 3, dy / r ^ 2 - dy / r ^ 3)

/-- Euclidean distance from the particle `p` to the point `(x, y)` is at most
`Particle::Radius`, stated on the squares. -/
def withinRadius (p : Particle F) (x y : Int) : Prop :=
  (p.x - (x : F)) ^ 2 + (p.y - (y : F)) ^ 2 ≤ (Particle.Radius : F) ^ 2

/-- Contribution of the index `j` to the accumulator of the inner loop. -/
def accelTerm (sqrt : F → F) (read : List (Particle F)) (dragged i : Nat)
    (p1 : Particle F) (j : Nat) : F × F :=
  if j = dragged ∨ i = j then (0, 0)
  else
    match read[j]? with
    | none => (0, 0)
    | some p2 => forceTerm sqrt p1 p2

/-- Particle at index `k` of the buffer `w` exists and has velocity `(0, 0)`. -/
def zeroVelocityAt (w : List (Particle F)) (k : Nat) : Prop :=
  ∃ p : Particle F, w[k]? = some p ∧ p.vx = 0 ∧ p.vy = 0

/-- Kind of message is one of the six that `processMessages` has a `case` for. -/
def isRecognised (t : MessageType) : Prop :=
  t = MessageType.Click ∨ t = MessageType.Drag ∨ t = MessageType.Move
    ∨ t = MessageType.Release ∨ t = MessageType.Resize ∨ t = MessageType.Stop

/-- Dragged index is "none" or an index of the write buffer. -/
def draggedInRange (s : Logic F) : Prop :=
  s.dragged = draggedNone ∨ s.dragged < s.writeBuffer.length

/-- Term that the inner loop adds to the acceleration of particle `i` for the
index `j`, as a function of the two indices: zero when either index is the
dragged one or when they coincide. -/
def pairTerm (sqrt : F → F) (read : List (Particle F)) (dragged i j : Nat) : F × F :=
  if i = dragged ∨ j = dragged ∨ i = j then (0, 0)
  else
    match read[i]?, read[j]? with
    | some p1, some p2 => forceTerm sqrt p1 p2
    | _, _ => (0, 0)

/-! ## Lemmas on the integrator -/

lemma specForce_eq_forceTerm (sqrt : F → F) (p1 p2 : Particle F) :
    specForce sqrt p1 p2 = forceTerm sqrt p1 p2 := by
  simp only [specForce, forceTerm, minDistance, pow_two, pow_three, mul_assoc]
  norm_num

lemma accelStep_eq (sqrt : F → F) (read : List (Particle F)) (dragged i : Nat)
    (p1 : Particle F) (a : F × F) (j : Nat) :
    accelStep sqrt read dragged i p1 a j
      = (a.1 + (accelTerm sqrt read dragged i p1 j).1,
         a.2 + (accelTerm sqrt read dragged i p1 j).2) := by
  unfold accelStep accelTerm
  by_cases h1 : j = dragged
  · simp [h1]
  · by_cases h2 : i = j
    · simp [h2]
    · simp only [h1, h2, if_false, or_self]
      cases read[j]? <;> simp

lemma accel_foldl (sqrt : F → F) (read : List (Particle F)) (dragged i : Nat)
    (p1 : Particle F) (n : Nat) (a : F × F) :
    (List.range n).foldl (accelStep sqrt read dragged i p1) a
      = (a.1 + ∑ j in Finset.range n, (accelTerm sqrt read dragged i p1 j).1,
         a.2 + ∑ j in Finset.range n, (accelTerm sqrt read dragged i p1 j).2) := by
  induction n with
  | zero => simp
  | succ n ih =>
    rw [List.range_succ, List.foldl_append, ih]
    simp only [List.foldl_cons, List.foldl_nil, accelStep_eq, Finset.sum_range_succ]
    ext <;> simp [add_assoc]

lemma accel_eq_sum (sqrt : F → F) (read : List (Particle F)) (dragged i : Nat)
    (p1 : Particle F) :
    accel sqrt read dragged i p1
      = (∑ j ∈ (Finset.univ : Finset (Fin read.length)).filter
              (fun j => j.val ≠ i ∧ j.val ≠ dragged), (specForce sqrt p1 (read.get j)).1,
         ∑ j ∈ (Finset.univ : Finset (Fin read.length)).filter
              (fun j => j.val ≠ i ∧ j.val ≠ dragged), (specForce sqrt p1 (read.get j)).2) := by
  unfold accel
  rw [accel_foldl, Finset.sum_range, Finset.sum_range, Finset.sum_filter, Finset.sum_filter]
  simp only [zero_add]
  congr 1 <;>
  · apply Finset.sum_congr rfl
    intro j _
    by_cases h : j.val ≠ i ∧ j.val ≠ dragged
    · have h' : ¬ (j.val = dragged ∨ i = j.val) := by
        rintro (h1 | h1)
        · exact h.2 h1
        · exact h.1 h1.symm
      have h2 : ¬ i = j.val := fun e => h.1 e.symm
      simp [accelTerm, h, h2, specForce_eq_forceTerm]
    · have h' : j.val = dragged ∨ i = j.val := by
        by_contra hc
        push_neg at hc
        exact h ⟨fun e => hc.2 e.symm, hc.1⟩
      simp [accelTerm, h, h']

/-! ### The outer loop writes the integrated particle at every index -/

lemma updateStep_length (sqrt : F → F) (s : Logic F) (w : List (Particle F)) (i : Nat) :
    (updateStep sqrt s w i).length = w.length := by
  unfold updateStep
  cases s.readBuffer[i]? <;> simp

lemma updateFold_length (sqrt : F → F) (s : Logic F) (n : Nat) (w : List (Particle F)) :
    ((List.range n).foldl (updateStep sqrt s) w).length = w.length := by
  induction n with
  | zero => simp
  | succ n ih =>
    rw [List.range_succ, List.foldl_append]
    simp [updateStep_length, ih]

lemma updateFold_getElem? (sqrt : F → F) (s : Logic F) (n : Nat) (w : List (Particle F))
    (i : Nat) (p : Particle F) (hp : s.readBuffer[i]? = some p) (hi : i < w.length) :
    ((List.range n).foldl (updateStep sqrt s) w)[i]?
      = if i < n then
          some (integrate sqrt s.readBuffer s.width s.height s.dragged i p)
        else w[i]? := by
  induction n with
  | zero => simp
  | succ n ih =>
    rw [List.range_succ, List.foldl_append]
    simp only [List.foldl_cons, List.foldl_nil]
    rcases Nat.lt_trichotomy i n with h | h | h
    · have h1 : i < n + 1 := by omega
      have h2 : n ≠ i := by omega
      rw [if_pos h] at ih
      rw [if_pos h1]
      unfold updateStep
      cases s.readBuffer[n]? with
      | none => exact ih
      | some q => simpa [List.getElem?_set_ne h2] using ih
    · subst h
      have hlen : i < ((List.range i).foldl (updateStep sqrt s) w).length := by
        rw [updateFold_length]; exact hi
      simp [updateStep, hp, List.getElem?_set_self hlen]
    · have h1 : ¬ i < n + 1 := by omega
      have h2 : ¬ i < n := by omega
      have h3 : n ≠ i := by omega
      rw [if_neg h2] at ih
      rw [if_neg h1]
      unfold updateStep
      cases s.readBuffer[n]? with
      | none => exact ih
      | some q => simpa [List.getElem?_set_ne h3] using ih

/-- Particle that `updateParticles` leaves at index `i` of the write buffer, for
an index of the read buffer that the write buffer also has. -/
lemma updateParticles_getElem? (sqrt : F → F) (s : Logic F) (i : Nat) (p : Particle F)
    (hp : s.readBuffer[i]? = some p) (hw : s.writeBuffer.length = s.readBuffer.length) :
    (updateParticles sqrt s).writeBuffer[i]?
      = some (integrate sqrt s.readBuffer s.width s.height s.dragged i p) := by
  have hi : i < s.readBuffer.length := by
    by_contra hc
    rw [List.getElem?_eq_none (by omega)] at hp
    exact Option.noConfusion hp
  unfold updateParticles
  simp only
  rw [updateFold_getElem? sqrt s _ _ i p hp (by omega), if_pos hi]

lemma updateParticles_length (sqrt : F → F) (s : Logic F) :
    (updateParticles sqrt s).writeBuffer.length = s.writeBuffer.length := by
  unfold updateParticles
  simp only
  exact updateFold_length sqrt s _ _

/-! ## Square root on the reals -/

lemma isSqrt_real : IsSqrt Real.sqrt :=
  fun s hs => ⟨Real.sqrt_nonneg s, Real.mul_self_sqrt hs⟩

/-! ## Claims on the force integrator -/

/-- C1: for a non-dragged particle `i` of the read buffer whose projected
coordinates `old position + dt * old velocity` lie inside
`[Radius, width - Radius]` and `[Radius, height - Radius]`, `updateParticles`
writes at index `i` the position `old position + dt * old velocity` and the
velocity `old velocity + dt * a`, where `a` is the sum over every `j ≠ i`,
`j ≠ dragged` of the specification's force term `d / r^2 - d / r^3`, all values
read from the read buffer. -/
theorem updateParticles_euler_step (sqrt : F → F) (s : Logic F) (i : Nat) (p : Particle F)
    (hw : s.writeBuffer.length = s.readBuffer.length)
    (hp : s.readBuffer[i]? = some p) (hd : i ≠ s.dragged)
    (hx1 : Particle.Radius ≤ p.x + Logic.dt * p.vx)
    (hx2 : p.x + Logic.dt * p.vx ≤ s.width - Particle.Radius)
    (hy1 : Particle.Radius ≤ p.y + Logic.dt * p.vy)
    (hy2 : p.y + Logic.dt * p.vy ≤ s.height - Particle.Radius) :
    (updateParticles sqrt s).writeBuffer[i]? = some
      { x := p.x + Logic.dt * p.vx
        y := p.y + Logic.dt * p.vy
        vx := p.vx + Logic.dt *
          ∑ j ∈ (Finset.univ : Finset (Fin s.readBuffer.length)).filter
            (fun j => j.val ≠ i ∧ j.val ≠ s.dragged),
            (specForce sqrt p (s.readBuffer.get j)).1
        vy := p.vy + Logic.dt *
          ∑ j ∈ (Finset.univ : Finset (Fin s.readBuffer.length)).filter
            (fun j => j.val ≠ i ∧ j.val ≠ s.dragged),
            (specForce sqrt p (s.readBuffer.get j)).2 } := by
  rw [updateParticles_getElem? sqrt s i p hp hw]
  have hx : ¬ (p.x + Logic.dt * p.vx < Particle.Radius
      ∨ p.x + Logic.dt * p.vx > s.width - Particle.Radius) := by
    rintro (h | h)
    · exact absurd hx1 (not_le.mpr h)
    · exact absurd hx2 (not_le.mpr h)
  have hy : ¬ (p.y + Logic.dt * p.vy < Particle.Radius
      ∨ p.y + Logic.dt * p.vy > s.height - Particle.Radius) := by
    rintro (h | h)
    · exact absurd hy1 (not_le.mpr h)
    · exact absurd hy2 (not_le.mpr h)
  unfold integrate
  simp only [if_pos hd, if_neg hx, if_neg hy, max_eq_left hx1, max_eq_left hy1,
    min_eq_left hx2, min_eq_left hy2, ne_eq, not_false_eq_true]
  rw [accel_eq_sum]

/-- Witness of C1: one step of two particles at rest at `(10, 10)` and
`(13, 14)` in a `100 x 100` domain, over the reals. -/
theorem updateParticles_euler_step_witness :
    (updateParticles Real.sqrt
      { readBuffer := [⟨10, 10, 0, 0⟩, ⟨13, 14, 0, 0⟩]
        writeBuffer := [⟨0, 0, 0, 0⟩, ⟨0, 0, 0, 0⟩]
        width := 100, height := 100, dragged := draggedNone }).writeBuffer[0]? = some
      { x := 10 + Logic.dt * 0
        y := 10 + Logic.dt * 0
        vx := 0 + Logic.dt *
          ∑ j ∈ (Finset.univ : Finset (Fin 2)).filter
            (fun j => j.val ≠ 0 ∧ j.val ≠ draggedNone),
            (specForce Real.sqrt ⟨10, 10, 0, 0⟩
              ([(⟨10, 10, 0, 0⟩ : Particle ℝ), ⟨13, 14, 0, 0⟩].get j)).1
        vy := 0 + Logic.dt *
          ∑ j ∈ (Finset.univ : Finset (Fin 2)).filter
            (fun j => j.val ≠ 0 ∧ j.val ≠ draggedNone),
            (specForce Real.sqrt ⟨10, 10, 0, 0⟩
              ([(⟨10, 10, 0, 0⟩ : Particle ℝ), ⟨13, 14, 0, 0⟩].get j)).2 } :=
  updateParticles_euler_step Real.sqrt
    { readBuffer := [⟨10, 10, 0, 0⟩, ⟨13, 14, 0, 0⟩]
      writeBuffer := [⟨0, 0, 0, 0⟩, ⟨0, 0, 0, 0⟩]
      width := 100, height := 100, dragged := draggedNone } 0 ⟨10, 10, 0, 0⟩
    rfl rfl (by decide)
    (by norm_num [Particle.Radius, Logic.dt]) (by norm_num [Particle.Radius, Logic.dt])
    (by norm_num [Particle.Radius, Logic.dt]) (by norm_num [Particle.Radius, Logic.dt])

/-- Particle written for a non-dragged index: the branch `i != dragged` of the
outer loop, with the reflection and the clamp on each axis. -/
lemma integrate_of_ne (sqrt : F → F) (read : List (Particle F)) (width height : F)
    (dragged i : Nat) (p : Particle F) (hd : i ≠ dragged) :
    integrate sqrt read width height dragged i p =
      { x := min (max (p.x + Logic.dt * p.vx) Particle.Radius) (width - Particle.Radius)
        y := min (max (p.y + Logic.dt * p.vy) Particle.Radius) (height - Particle.Radius)
        vx := if p.x + Logic.dt * p.vx < Particle.Radius
                ∨ p.x + Logic.dt * p.vx > width - Particle.Radius
              then -(p.vx + Logic.dt * (accel sqrt read dragged i p).1)
              else p.vx + Logic.dt * (accel sqrt read dragged i p).1
        vy := if p.y + Logic.dt * p.vy < Particle.Radius
                ∨ p.y + Logic.dt * p.vy > height - Particle.Radius
              then -(p.vy + Logic.dt * (accel sqrt read dragged i p).2)
              else p.vy + Logic.dt * (accel sqrt read dragged i p).2 } := by
  unfold integrate
  simp only [if_pos hd, mul_neg, mul_one]

/-- C2 (as amended): for every non-dragged particle `i` the position written by
`updateParticles` is at most `width - Radius` on the x axis and at most
`height - Radius` on the y axis, and it is at least `Radius` on an axis whose
dimension is at least `2 * Radius`; so for a domain whose width and height are
each at least twice the radius the position lies inside `[Radius, width - Radius]`
and `[Radius, height - Radius]`. -/
theorem updateParticles_position_in_range (sqrt : F → F) (s : Logic F) (i : Nat)
    (p : Particle F) (hw : s.writeBuffer.length = s.readBuffer.length)
    (hp : s.readBuffer[i]? = some p) (hd : i ≠ s.dragged) :
    ∃ q : Particle F, (updateParticles sqrt s).writeBuffer[i]? = some q
      ∧ q.x ≤ s.width - Particle.Radius
      ∧ q.y ≤ s.height - Particle.Radius
      ∧ (2 * Particle.Radius ≤ s.width → Particle.Radius ≤ q.x)
      ∧ (2 * Particle.Radius ≤ s.height → Particle.Radius ≤ q.y) := by
  refine ⟨_, updateParticles_getElem? sqrt s i p hp hw, ?_, ?_, ?_, ?_⟩
  · rw [integrate_of_ne sqrt _ _ _ _ _ _ hd]
    exact min_le_right _ _
  · rw [integrate_of_ne sqrt _ _ _ _ _ _ hd]
    exact min_le_right _ _
  · intro h
    rw [integrate_of_ne sqrt _ _ _ _ _ _ hd]
    exact le_min (le_max_right _ _) (by linarith)
  · intro h
    rw [integrate_of_ne sqrt _ _ _ _ _ _ hd]
    exact le_min (le_max_right _ _) (by linarith)

/-- Witness of C2 (as amended): a particle moving left from `(8, 50)` in a
`100 x 100` domain, over the reals. -/
theorem updateParticles_position_in_range_witness :
    ∃ q : Particle ℝ,
      (updateParticles Real.sqrt
        { readBuffer := [⟨8, 50, -100, 0⟩]
          writeBuffer := [⟨0, 0, 0, 0⟩]
          width := 100, height := 100, dragged := draggedNone }).writeBuffer[0]? = some q
      ∧ q.x ≤ 100 - Particle.Radius
      ∧ q.y ≤ 100 - Particle.Radius
      ∧ (2 * Particle.Radius ≤ (100 : ℝ) → Particle.Radius ≤ q.x)
      ∧ (2 * Particle.Radius ≤ (100 : ℝ) → Particle.Radius ≤ q.y) :=
  updateParticles_position_in_range Real.sqrt
    { readBuffer := [⟨8, 50, -100, 0⟩]
      writeBuffer := [⟨0, 0, 0, 0⟩]
      width := 100, height := 100, dragged := draggedNone } 0 ⟨8, 50, -100, 0⟩
    rfl rfl (by decide)

/-- Counterexample to C2 as stated: in a `10 x 10` domain, which meets the
start-up precondition `width > Radius`, `height > Radius`, the particle at rest
at `(8, 8)` is written at `(3, 3)`, below `Radius = 7` on both axes (the range
`[Radius, 10 - Radius]` is empty). -/
theorem updateParticles_position_counterexample :
    startPrecondition (10 : ℝ) 10
      ∧ (updateParticles Real.sqrt
          { readBuffer := [⟨8, 8, 0, 0⟩]
            writeBuffer := [⟨0, 0, 0, 0⟩]
            width := 10, height := 10, dragged := draggedNone }).writeBuffer[0]?
          = some ⟨3, 3, 0, 0⟩
      ∧ ¬ ((Particle.Radius : ℝ) ≤ 3) := by
  refine ⟨?_, ?_, ?_⟩
  · constructor <;> norm_num [Particle.Radius]
  · rw [updateParticles_getElem? Real.sqrt
      { readBuffer := [⟨8, 8, 0, 0⟩]
        writeBuffer := [⟨0, 0, 0, 0⟩]
        width := 10, height := 10, dragged := draggedNone } 0 ⟨8, 8, 0, 0⟩ rfl rfl]
    rw [integrate_of_ne Real.sqrt _ _ _ _ _ _ (by decide)]
    simp only [accel, List.length_singleton, List.range_succ, List.range_zero, List.nil_append,
      List.foldl_cons, List.foldl_nil, accelStep]
    norm_num [Particle.Radius, Logic.dt, draggedNone]
  · norm_num [Particle.Radius]

/-- C3: for a non-dragged particle and each axis, the velocity component that
`updateParticles` writes is the negation of `old velocity + dt * acceleration`
when the projected coordinate `old position + dt * old velocity` (before the
clamp) is below `Radius` or above `dimension - Radius`, and is
`old velocity + dt * acceleration` itself otherwise. -/
theorem updateParticles_velocity_reflection (sqrt : F → F) (s : Logic F) (i : Nat)
    (p : Particle F) (hw : s.writeBuffer.length = s.readBuffer.length)
    (hp : s.readBuffer[i]? = some p) (hd : i ≠ s.dragged) :
    ∃ q : Particle F, (updateParticles sqrt s).writeBuffer[i]? = some q
      ∧ (p.x + Logic.dt * p.vx < Particle.Radius
            ∨ p.x + Logic.dt * p.vx > s.width - Particle.Radius →
          q.vx = -(p.vx + Logic.dt * (accel sqrt s.readBuffer s.dragged i p).1))
      ∧ (¬ (p.x + Logic.dt * p.vx < Particle.Radius
            ∨ p.x + Logic.dt * p.vx > s.width - Particle.Radius) →
          q.vx = p.vx + Logic.dt * (accel sqrt s.readBuffer s.dragged i p).1)
      ∧ (p.y + Logic.dt * p.vy < Particle.Radius
            ∨ p.y + Logic.dt * p.vy > s.height - Particle.Radius →
          q.vy = -(p.vy + Logic.dt * (accel sqrt s.readBuffer s.dragged i p).2))
      ∧ (¬ (p.y + Logic.dt * p.vy < Particle.Radius
            ∨ p.y + Logic.dt * p.vy > s.height - Particle.Radius) →
          q.vy = p.vy + Logic.dt * (accel sqrt s.readBuffer s.dragged i p).2) := by
  refine ⟨_, updateParticles_getElem? sqrt s i p hp hw, ?_, ?_, ?_, ?_⟩
  all_goals
    intro h
    rw [integrate_of_ne sqrt _ _ _ _ _ _ hd]
    first
      | exact if_pos h
      | exact if_neg h

/-- Witness of C3: a particle at `(8, 50)` moving left with velocity `-100` in a
`100 x 100` domain (projected x coordinate `5 < Radius`), over the reals. -/
theorem updateParticles_velocity_reflection_witness :
    ∃ q : Particle ℝ,
      (updateParticles Real.sqrt
        { readBuffer := [⟨8, 50, -100, 0⟩]
          writeBuffer := [⟨0, 0, 0, 0⟩]
          width := 100, height := 100, dragged := draggedNone }).writeBuffer[0]? = some q
      ∧ ((8 : ℝ) + Logic.dt * -100 < Particle.Radius
            ∨ (8 : ℝ) + Logic.dt * -100 > 100 - Particle.Radius →
          q.vx = -(-100 + Logic.dt *
            (accel Real.sqrt [⟨8, 50, -100, 0⟩] draggedNone 0 ⟨8, 50, -100, 0⟩).1))
      ∧ (¬ ((8 : ℝ) + Logic.dt * -100 < Particle.Radius
            ∨ (8 : ℝ) + Logic.dt * -100 > 100 - Particle.Radius) →
          q.vx = -100 + Logic.dt *
            (accel Real.sqrt [⟨8, 50, -100, 0⟩] draggedNone 0 ⟨8, 50, -100, 0⟩).1)
      ∧ ((50 : ℝ) + Logic.dt * 0 < Particle.Radius
            ∨ (50 : ℝ) + Logic.dt * 0 > 100 - Particle.Radius →
          q.vy = -(0 + Logic.dt *
            (accel Real.sqrt [⟨8, 50, -100, 0⟩] draggedNone 0 ⟨8, 50, -100, 0⟩).2))
      ∧ (¬ ((50 : ℝ) + Logic.dt * 0 < Particle.Radius
            ∨ (50 : ℝ) + Logic.dt * 0 > 100 - Particle.Radius) →
          q.vy = 0 + Logic.dt *
            (accel Real.sqrt [⟨8, 50, -100, 0⟩] draggedNone 0 ⟨8, 50, -100, 0⟩).2) :=
  updateParticles_velocity_reflection Real.sqrt
    { readBuffer := [⟨8, 50, -100, 0⟩]
      writeBuffer := [⟨0, 0, 0, 0⟩]
      width := 100, height := 100, dragged := draggedNone } 0 ⟨8, 50, -100, 0⟩
    rfl rfl (by decide)

/-! ## The two-particle force law -/

lemma minDistance_pos : (0 : F) < minDistance := by
  unfold minDistance
  norm_num

/-- Acceleration accumulated for particle 0 of a two-particle system with no
particle dragged: the single force term towards particle 1. -/
lemma accel_two_zero (sqrt : F → F) (p q : Particle F) :
    accel sqrt [p, q] draggedNone 0 p = forceTerm sqrt p q := by
  simp [accel, accelStep, List.range_succ, draggedNone]

/-- Acceleration accumulated for particle 1 of a two-particle system with no
particle dragged: the single force term towards particle 0. -/
lemma accel_two_one (sqrt : F → F) (p q : Particle F) :
    accel sqrt [p, q] draggedNone 1 q = forceTerm sqrt q p := by
  simp [accel, accelStep, List.range_succ, draggedNone]

/-- Above the distance clamp the force term is the displacement scaled by
`1 / r^2 - 1 / r^3`. -/
lemma forceTerm_eq_scale (sqrt : F → F) (p1 p2 : Particle F)
    (hr : minDistance
      ≤ sqrt ((p2.x - p1.x) * (p2.x - p1.x) + (p2.y - p1.y) * (p2.y - p1.y))) :
    forceTerm sqrt p1 p2
      = ((1 / sqrt ((p2.x - p1.x) * (p2.x - p1.x) + (p2.y - p1.y) * (p2.y - p1.y)) ^ 2
            - 1 / sqrt ((p2.x - p1.x) * (p2.x - p1.x) + (p2.y - p1.y) * (p2.y - p1.y)) ^ 3)
            * (p2.x - p1.x),
         (1 / sqrt ((p2.x - p1.x) * (p2.x - p1.x) + (p2.y - p1.y) * (p2.y - p1.y)) ^ 2
            - 1 / sqrt ((p2.x - p1.x) * (p2.x - p1.x) + (p2.y - p1.y) * (p2.y - p1.y)) ^ 3)
            * (p2.y - p1.y)) := by
  unfold forceTerm
  simp only [max_eq_left hr]
  ext <;> simp only <;> ring

lemma sqrt_swap (sqrt : F → F) (p q : Particle F) :
    sqrt ((p.x - q.x) * (p.x - q.x) + (p.y - q.y) * (p.y - q.y))
      = sqrt ((q.x - p.x) * (q.x - p.x) + (q.y - p.y) * (q.y - p.y)) := by
  congr 1
  ring

/-- Sign of the scale factor `1 / r^2 - 1 / r^3` of the force law. -/
lemma scale_sign (r : F) (hr : 0 < r) :
    (r < 1 → 1 / r ^ 2 - 1 / r ^ 3 < 0) ∧ (r = 1 → 1 / r ^ 2 - 1 / r ^ 3 = 0)
      ∧ (1 < r → 0 < 1 / r ^ 2 - 1 / r ^ 3) := by
  have h3 : 0 < r ^ 3 := pow_pos hr 3
  have he : 1 / r ^ 2 - 1 / r ^ 3 = (r - 1) / r ^ 3 := by
    field_simp
    ring
  rw [he]
  refine ⟨fun h => ?_, fun h => ?_, fun h => ?_⟩
  · exact div_neg_of_neg_of_pos (by linarith) h3
  · simp [h]
  · exact div_pos (by linarith) h3

/-- C4 (as amended): in a two-particle system with no particle dragged, for
every separation `r ≥ 1e-6` the radial component (along the unit vector
pointing to the other particle) of the acceleration that `updateParticles`
accumulates for each particle equals `r * (1/r^2 - 1/r^3) = 1/r - 1/r^2`. -/
theorem two_particle_radial_component (sqrt : F → F) (hs : IsSqrt sqrt) (p q : Particle F)
    (r : F) (hr : r = sqrt ((q.x - p.x) * (q.x - p.x) + (q.y - p.y) * (q.y - p.y)))
    (hmin : minDistance ≤ r) :
    (accel sqrt [p, q] draggedNone 0 p).1 * ((q.x - p.x) / r)
        + (accel sqrt [p, q] draggedNone 0 p).2 * ((q.y - p.y) / r) = 1 / r - 1 / r ^ 2
      ∧ (accel sqrt [p, q] draggedNone 1 q).1 * ((p.x - q.x) / r)
        + (accel sqrt [p, q] draggedNone 1 q).2 * ((p.y - q.y) / r) = 1 / r - 1 / r ^ 2 := by
  have hpos : 0 < r := lt_of_lt_of_le minDistance_pos hmin
  have hne : r ≠ 0 := ne_of_gt hpos
  have hsq : r * r = (q.x - p.x) * (q.x - p.x) + (q.y - p.y) * (q.y - p.y) := by
    rw [hr]
    exact (hs _ (add_nonneg (mul_self_nonneg _) (mul_self_nonneg _))).2
  have hr' : r = sqrt ((p.x - q.x) * (p.x - q.x) + (p.y - q.y) * (p.y - q.y)) := by
    rw [sqrt_swap sqrt p q]
    exact hr
  have key : ∀ dx dy : F, r * r = dx * dx + dy * dy →
      (1 / r ^ 2 - 1 / r ^ 3) * dx * (dx / r) + (1 / r ^ 2 - 1 / r ^ 3) * dy * (dy / r)
        = 1 / r - 1 / r ^ 2 := by
    intro dx dy h
    have e : (1 / r ^ 2 - 1 / r ^ 3) * dx * (dx / r) + (1 / r ^ 2 - 1 / r ^ 3) * dy * (dy / r)
        = (1 / r ^ 2 - 1 / r ^ 3) * (dx * dx + dy * dy) / r := by ring
    rw [e, ← h]
    field_simp
    ring
  constructor
  · rw [accel_two_zero, forceTerm_eq_scale sqrt p q (hr ▸ hmin), ← hr]
    exact key _ _ hsq
  · rw [accel_two_one, forceTerm_eq_scale sqrt q p (hr' ▸ hmin), ← hr']
    exact key _ _ (by rw [hsq]; ring)

lemma real_sqrt_three_four :
    (5 : ℝ) = Real.sqrt ((3 - 0) * (3 - 0) + (4 - 0) * (4 - 0)) := by
  rw [show ((3 : ℝ) - 0) * (3 - 0) + (4 - 0) * (4 - 0) = 5 ^ 2 by norm_num,
    Real.sqrt_sq (by norm_num)]

lemma real_sqrt_two_zero :
    (2 : ℝ) = Real.sqrt ((2 - 0) * (2 - 0) + (0 - 0) * (0 - 0)) := by
  rw [show ((2 : ℝ) - 0) * (2 - 0) + (0 - 0) * (0 - 0) = 2 ^ 2 by norm_num,
    Real.sqrt_sq (by norm_num)]

/-- Witness of C4 (as amended): particles at `(0, 0)` and `(3, 4)`, separation
`5`, over the reals. -/
theorem two_particle_radial_component_witness :
    (accel Real.sqrt [⟨0, 0, 0, 0⟩, ⟨3, 4, 0, 0⟩] draggedNone 0 ⟨0, 0, 0, 0⟩).1
          * ((3 - 0) / 5)
        + (accel Real.sqrt [⟨0, 0, 0, 0⟩, ⟨3, 4, 0, 0⟩] draggedNone 0 ⟨0, 0, 0, 0⟩).2
          * ((4 - 0) / 5) = 1 / 5 - 1 / 5 ^ 2
      ∧ (accel Real.sqrt [⟨0, 0, 0, 0⟩, ⟨3, 4, 0, 0⟩] draggedNone 1 ⟨3, 4, 0, 0⟩).1
          * ((0 - 3) / 5)
        + (accel Real.sqrt [⟨0, 0, 0, 0⟩, ⟨3, 4, 0, 0⟩] draggedNone 1 ⟨3, 4, 0, 0⟩).2
          * ((0 - 4) / 5) = 1 / 5 - 1 / 5 ^ 2 :=
  two_particle_radial_component Real.sqrt isSqrt_real ⟨0, 0, 0, 0⟩ ⟨3, 4, 0, 0⟩ 5
    real_sqrt_three_four (by norm_num [minDistance])

/-- Counterexample to C4 as stated: for particles at `(0, 0)` and `(2, 0)`
(separation `r = 2 ≥ 1e-6`, unit vector `(1, 0)`) the acceleration accumulated
for particle 0 is `(1/4, 0)`, so its radial component is `1/4`, not
`1/2^2 - 1/2^3 = 1/8`. -/
theorem two_particle_radial_counterexample :
    (2 : ℝ) = Real.sqrt ((2 - 0) * (2 - 0) + (0 - 0) * (0 - 0))
      ∧ (minDistance : ℝ) ≤ 2
      ∧ accel Real.sqrt [⟨0, 0, 0, 0⟩, ⟨2, 0, 0, 0⟩] draggedNone 0 ⟨0, 0, 0, 0⟩ = (1 / 4, 0)
      ∧ (accel Real.sqrt [⟨0, 0, 0, 0⟩, ⟨2, 0, 0, 0⟩] draggedNone 0 ⟨0, 0, 0, 0⟩).1
            * ((2 - 0) / 2)
          + (accel Real.sqrt [⟨0, 0, 0, 0⟩, ⟨2, 0, 0, 0⟩] draggedNone 0 ⟨0, 0, 0, 0⟩).2
            * ((0 - 0) / 2) ≠ 1 / 2 ^ 2 - 1 / 2 ^ 3 := by
  have hmin : (minDistance : ℝ) ≤ 2 := by norm_num [minDistance]
  have ha : accel Real.sqrt [⟨0, 0, 0, 0⟩, ⟨2, 0, 0, 0⟩] draggedNone 0 ⟨0, 0, 0, 0⟩
      = ((1 : ℝ) / 4, 0) := by
    rw [accel_two_zero, forceTerm_eq_scale Real.sqrt _ _ (real_sqrt_two_zero ▸ hmin),
      ← real_sqrt_two_zero]
    norm_num
  refine ⟨real_sqrt_two_zero, hmin, ha, ?_⟩
  rw [ha]
  norm_num

/-- C5: in a two-particle system with no particle dragged and separation
`r ≥ 1e-6`, the acceleration accumulated for each particle is the displacement
towards the other particle scaled by `c = 1/r^2 - 1/r^3`; `c < 0` (the
acceleration points away from the other particle) for `r < 1`, the acceleration
is exactly zero at `r = 1`, and `c > 0` (it points toward the other particle)
for `r > 1`. -/
theorem two_particle_sign_change (sqrt : F → F) (p q : Particle F)
    (r : F) (hr : r = sqrt ((q.x - p.x) * (q.x - p.x) + (q.y - p.y) * (q.y - p.y)))
    (hmin : minDistance ≤ r) :
    accel sqrt [p, q] draggedNone 0 p
        = ((1 / r ^ 2 - 1 / r ^ 3) * (q.x - p.x), (1 / r ^ 2 - 1 / r ^ 3) * (q.y - p.y))
      ∧ accel sqrt [p, q] draggedNone 1 q
        = ((1 / r ^ 2 - 1 / r ^ 3) * (p.x - q.x), (1 / r ^ 2 - 1 / r ^ 3) * (p.y - q.y))
      ∧ (r < 1 → 1 / r ^ 2 - 1 / r ^ 3 < 0)
      ∧ (r = 1 → accel sqrt [p, q] draggedNone 0 p = (0, 0)
                ∧ accel sqrt [p, q] draggedNone 1 q = (0, 0))
      ∧ (1 < r → 0 < 1 / r ^ 2 - 1 / r ^ 3) := by
  have hpos : 0 < r := lt_of_lt_of_le minDistance_pos hmin
  have hr' : r = sqrt ((p.x - q.x) * (p.x - q.x) + (p.y - q.y) * (p.y - q.y)) := by
    rw [sqrt_swap sqrt p q]
    exact hr
  have h0 : accel sqrt [p, q] draggedNone 0 p
      = ((1 / r ^ 2 - 1 / r ^ 3) * (q.x - p.x), (1 / r ^ 2 - 1 / r ^ 3) * (q.y - p.y)) := by
    rw [accel_two_zero, forceTerm_eq_scale sqrt p q (hr ▸ hmin), ← hr]
  have h1 : accel sqrt [p, q] draggedNone 1 q
      = ((1 / r ^ 2 - 1 / r ^ 3) * (p.x - q.x), (1 / r ^ 2 - 1 / r ^ 3) * (p.y - q.y)) := by
    rw [accel_two_one, forceTerm_eq_scale sqrt q p (hr' ▸ hmin), ← hr']
  obtain ⟨hlt, heq, hgt⟩ := scale_sign r hpos
  refine ⟨h0, h1, hlt, fun h => ?_, hgt⟩
  rw [h0, h1, heq h]
  simp

/-- Witness of C5: particles at `(0, 0)` and `(3, 4)`, separation `5 > 1`,
over the reals. -/
theorem two_particle_sign_change_witness :
    accel Real.sqrt [⟨0, 0, 0, 0⟩, ⟨3, 4, 0, 0⟩] draggedNone 0 ⟨0, 0, 0, 0⟩
        = ((1 / 5 ^ 2 - 1 / 5 ^ 3) * (3 - 0), (1 / 5 ^ 2 - 1 / 5 ^ 3) * (4 - 0))
      ∧ accel Real.sqrt [⟨0, 0, 0, 0⟩, ⟨3, 4, 0, 0⟩] draggedNone 1 ⟨3, 4, 0, 0⟩
        = ((1 / 5 ^ 2 - 1 / 5 ^ 3) * (0 - 3), (1 / 5 ^ 2 - 1 / 5 ^ 3) * (0 - 4))
      ∧ ((5 : ℝ) < 1 → (1 : ℝ) / 5 ^ 2 - 1 / 5 ^ 3 < 0)
      ∧ ((5 : ℝ) = 1 →
          accel Real.sqrt [⟨0, 0, 0, 0⟩, ⟨3, 4, 0, 0⟩] draggedNone 0 ⟨0, 0, 0, 0⟩ = (0, 0)
            ∧ accel Real.sqrt [⟨0, 0, 0, 0⟩, ⟨3, 4, 0, 0⟩] draggedNone 1 ⟨3, 4, 0, 0⟩ = (0, 0))
      ∧ ((1 : ℝ) < 5 → (0 : ℝ) < 1 / 5 ^ 2 - 1 / 5 ^ 3) :=
  two_particle_sign_change Real.sqrt ⟨0, 0, 0, 0⟩ ⟨3, 4, 0, 0⟩ 5
    real_sqrt_three_four (by norm_num [minDistance])

/-! ## Picking -/

/-- Test `r <= Particle::Radius` of `findParticle` is the Euclidean test on the
squares when `sqrt` is the square root. -/
lemma sqrt_le_radius_iff (sqrt : F → F) (hs : IsSqrt sqrt) (p : Particle F) (x y : Int) :
    sqrt ((p.x - (x : F)) * (p.x - (x : F)) + (p.y - (y : F)) * (p.y - (y : F)))
        ≤ Particle.Radius ↔ withinRadius p x y := by
  obtain ⟨h0, h1⟩ := hs ((p.x - (x : F)) * (p.x - (x : F)) + (p.y - (y : F)) * (p.y - (y : F)))
    (add_nonneg (mul_self_nonneg _) (mul_self_nonneg _))
  have hR : (0 : F) ≤ Particle.Radius := by
    unfold Particle.Radius
    norm_num
  unfold withinRadius
  rw [mul_self_le_mul_self_iff h0 hR, h1, pow_two, pow_two, pow_two]

/-- Loop invariant of `findParticleFrom`: the result is the counter value of
the first particle of the rest that passes the test, or the end value. -/
lemma findParticleFrom_spec (sqrt : F → F) (hs : IsSqrt sqrt) (x y : Int)
    (l : List (Particle F)) (i : Nat) :
    i ≤ findParticleFrom sqrt x y l i
      ∧ findParticleFrom sqrt x y l i ≤ i + l.length
      ∧ (∀ (j : Nat) (p : Particle F), i + j < findParticleFrom sqrt x y l i → l[j]? = some p → ¬ withinRadius p x y)
      ∧ (findParticleFrom sqrt x y l i < i + l.length →
          ∃ p, l[findParticleFrom sqrt x y l i - i]? = some p ∧ withinRadius p x y) := by
  induction l generalizing i with
  | nil =>
    refine ⟨le_refl _, le_refl _, ?_, ?_⟩
    · intro j p _ h
      simp at h
    · intro h
      simp [findParticleFrom] at h
  | cons a l ih =>
    by_cases hnear : withinRadius a x y
    · have e : findParticleFrom sqrt x y (a :: l) i = i := by
        simp only [findParticleFrom]
        rw [if_pos ((sqrt_le_radius_iff sqrt hs a x y).mpr hnear)]
      rw [e]
      refine ⟨le_refl _, by simp, ?_, ?_⟩
      · intro j p h _
        omega
      · intro _
        exact ⟨a, by simp, hnear⟩
    · have e : findParticleFrom sqrt x y (a :: l) i = findParticleFrom sqrt x y l (i + 1) := by
        simp only [findParticleFrom]
        rw [if_neg (fun h => hnear ((sqrt_le_radius_iff sqrt hs a x y).mp h))]
      rw [e]
      obtain ⟨h1, h2, h3, h4⟩ := ih (i + 1)
      refine ⟨by omega, by simp only [List.length_cons]; omega, ?_, ?_⟩
      · intro j p hj hp
        cases j with
        | zero =>
          simp only [List.getElem?_cons_zero, Option.some.injEq] at hp
          rw [← hp]
          exact hnear
        | succ j =>
          simp only [List.getElem?_cons_succ] at hp
          exact h3 j p (by omega) hp
      · intro hlt
        obtain ⟨p, hp, hpn⟩ := h4 (by simp only [List.length_cons] at hlt; omega)
        refine ⟨p, ?_, hpn⟩
        have e2 : findParticleFrom sqrt x y l (i + 1) - i
            = (findParticleFrom sqrt x y l (i + 1) - (i + 1)) + 1 := by omega
        rw [e2, List.getElem?_cons_succ]
        exact hp

/-- Scan from index 0: the result is at most the length of the write buffer,
no lower index passes the test, and a result below the length passes it. -/
lemma findParticle_scan (sqrt : F → F) (hs : IsSqrt sqrt) (s : Logic F) (x y : Int) :
    findParticle sqrt s x y ≤ s.writeBuffer.length
      ∧ (∀ (j : Nat) (p : Particle F), j < findParticle sqrt s x y →
          s.writeBuffer[j]? = some p → ¬ withinRadius p x y)
      ∧ (findParticle sqrt s x y < s.writeBuffer.length →
          ∃ p, s.writeBuffer[findParticle sqrt s x y]? = some p ∧ withinRadius p x y) := by
  obtain ⟨_, h2, h3, h4⟩ := findParticleFrom_spec sqrt hs x y s.writeBuffer 0
  simp only [Nat.zero_add, Nat.sub_zero] at h2 h3 h4
  exact ⟨h2, h3, h4⟩

/-- C6: `findParticle` returns the least index whose particle has Euclidean
distance `≤ Radius` to the query point (every lower index is farther than
`Radius`, and distance exactly `Radius` matches), and returns the length of the
write buffer exactly when no particle is within `Radius`; being the least such
index, it is the first match by index whatever the distances of later
particles. -/
theorem findParticle_first_match (sqrt : F → F) (hs : IsSqrt sqrt) (s : Logic F) (x y : Int) :
    findParticle sqrt s x y ≤ s.writeBuffer.length
      ∧ (∀ (j : Nat) (p : Particle F), j < findParticle sqrt s x y → s.writeBuffer[j]? = some p →
          ¬ withinRadius p x y)
      ∧ (findParticle sqrt s x y < s.writeBuffer.length →
          ∃ p, s.writeBuffer[findParticle sqrt s x y]? = some p ∧ withinRadius p x y)
      ∧ (findParticle sqrt s x y = s.writeBuffer.length ↔
          ∀ (j : Nat) (p : Particle F), s.writeBuffer[j]? = some p → ¬ withinRadius p x y) := by
  obtain ⟨_, h2, h3, h4⟩ := findParticleFrom_spec sqrt hs x y s.writeBuffer 0
  simp only [Nat.zero_add, Nat.sub_zero] at h2 h3 h4
  refine ⟨h2, h3, h4, ?_, ?_⟩
  · intro e j p hp
    have hj : j < s.writeBuffer.length := by
      by_contra hc
      rw [List.getElem?_eq_none (by omega)] at hp
      exact Option.noConfusion hp
    have e' : findParticleFrom sqrt x y s.writeBuffer 0 = s.writeBuffer.length := e
    exact h3 j p (by omega) hp
  · intro hall
    by_contra hne
    obtain ⟨p, hp, hpn⟩ := h4 (lt_of_le_of_ne h2 hne)
    exact hall _ p hp hpn

/-- Witness of C6: the write buffer holds a particle at `(3, 4)` (distance 5)
and then one at `(0, 0)` (distance 0); the query point is `(0, 0)`. -/
theorem findParticle_first_match_witness :
    findParticle Real.sqrt
        { readBuffer := [], writeBuffer := [⟨3, 4, 0, 0⟩, ⟨0, 0, 0, 0⟩]
          width := 100, height := 100, dragged := draggedNone } 0 0 ≤ 2
      ∧ (∀ (j : Nat) (p : Particle ℝ), j < findParticle Real.sqrt
            { readBuffer := [], writeBuffer := [⟨3, 4, 0, 0⟩, ⟨0, 0, 0, 0⟩]
              width := 100, height := 100, dragged := draggedNone } 0 0 →
          [(⟨3, 4, 0, 0⟩ : Particle ℝ), ⟨0, 0, 0, 0⟩][j]? = some p → ¬ withinRadius p 0 0)
      ∧ (findParticle Real.sqrt
            { readBuffer := [], writeBuffer := [⟨3, 4, 0, 0⟩, ⟨0, 0, 0, 0⟩]
              width := 100, height := 100, dragged := draggedNone } 0 0 < 2 →
          ∃ p, [(⟨3, 4, 0, 0⟩ : Particle ℝ), ⟨0, 0, 0, 0⟩][findParticle Real.sqrt
            { readBuffer := [], writeBuffer := [⟨3, 4, 0, 0⟩, ⟨0, 0, 0, 0⟩]
              width := 100, height := 100, dragged := draggedNone } 0 0]? = some p
            ∧ withinRadius p 0 0)
      ∧ (findParticle Real.sqrt
            { readBuffer := [], writeBuffer := [⟨3, 4, 0, 0⟩, ⟨0, 0, 0, 0⟩]
              width := 100, height := 100, dragged := draggedNone } 0 0 = 2 ↔
          ∀ (j : Nat) (p : Particle ℝ), [(⟨3, 4, 0, 0⟩ : Particle ℝ), ⟨0, 0, 0, 0⟩][j]? = some p →
            ¬ withinRadius p 0 0) :=
  findParticle_first_match Real.sqrt isSqrt_real
    { readBuffer := [], writeBuffer := [⟨3, 4, 0, 0⟩, ⟨0, 0, 0, 0⟩]
      width := 100, height := 100, dragged := draggedNone } 0 0

/-! ## Click -/

lemma processMessages_single (sqrt : F → F) (s : Logic F) (m : Message) :
    processMessages sqrt s [m]
      = match handleMessage sqrt s m with
        | Handled.next s' => Outcome.returned false s'
        | Handled.stop s' => Outcome.returned true s'
        | Handled.exit => Outcome.exited := by
  simp only [processMessages]

/-- Index returned by `findParticle` when `k` is the lowest index of a particle
within `Radius` of the point. -/
lemma findParticle_eq_of_least (sqrt : F → F) (hs : IsSqrt sqrt) (s : Logic F) (x y : Int)
    (k : Nat) (pk : Particle F) (hk : s.writeBuffer[k]? = some pk)
    (hin : withinRadius pk x y)
    (hleast : ∀ (j : Nat) (p : Particle F), j < k → s.writeBuffer[j]? = some p →
      ¬ withinRadius p x y) :
    findParticle sqrt s x y = k := by
  obtain ⟨_, h2, h3⟩ := findParticle_scan sqrt hs s x y
  have hklen : k < s.writeBuffer.length := by
    by_contra hc
    rw [List.getElem?_eq_none (by omega)] at hk
    exact Option.noConfusion hk
  rcases Nat.lt_trichotomy (findParticle sqrt s x y) k with h | h | h
  · obtain ⟨p, hp, hpn⟩ := h3 (by omega)
    exact absurd hpn (hleast _ p h hp)
  · exact h
  · exact absurd hin (h2 k pk h hk)

/-- C7: when `k` is the lowest index of a particle within `Radius` of the
point, handling a Click at that point yields exactly the state whose write
buffer has element `k` erased: the length is reduced by one, the particles
below `k` keep their index and the particles above `k` move down by one, in the
same order (so with matches at indices 2 and 5, index 2 is removed and the
former index 5 is found at index 4). -/
theorem click_removes_first_match (sqrt : F → F) (hs : IsSqrt sqrt) (s : Logic F) (x y : Int)
    (k : Nat) (pk : Particle F) (hk : s.writeBuffer[k]? = some pk)
    (hin : withinRadius pk x y)
    (hleast : ∀ (j : Nat) (p : Particle F), j < k → s.writeBuffer[j]? = some p →
      ¬ withinRadius p x y) :
    processMessages sqrt s [⟨MessageType.Click, x, y⟩]
        = Outcome.returned false { s with writeBuffer := s.writeBuffer.eraseIdx k }
      ∧ (s.writeBuffer.eraseIdx k).length + 1 = s.writeBuffer.length
      ∧ (∀ j : Nat, j < k → (s.writeBuffer.eraseIdx k)[j]? = s.writeBuffer[j]?)
      ∧ (∀ j : Nat, k ≤ j → (s.writeBuffer.eraseIdx k)[j]? = s.writeBuffer[j + 1]?) := by
  have hklen : k < s.writeBuffer.length := by
    by_contra hc
    rw [List.getElem?_eq_none (by omega)] at hk
    exact Option.noConfusion hk
  have hf := findParticle_eq_of_least sqrt hs s x y k pk hk hin hleast
  refine ⟨?_, ?_, ?_, ?_⟩
  · rw [processMessages_single]
    simp only [handleMessage, hf, if_pos hklen]
  · rw [List.length_eraseIdx_of_lt hklen]
    omega
  · intro j hj
    exact List.getElem?_eraseIdx_of_lt _ _ _ hj
  · intro j hj
    exact List.getElem?_eraseIdx_of_ge _ _ _ hj

/-- Witness of C7: six particles of which those at indices 2 (at `(3, 4)`) and 5
(at `(0, 0)`) are within `Radius` of the point `(0, 0)`; the Click removes
index 2 and the former index 5 is now at index 4. -/
theorem click_removes_first_match_witness :
    processMessages Real.sqrt
        { readBuffer := []
          writeBuffer := [⟨100, 0, 0, 0⟩, ⟨200, 0, 0, 0⟩, ⟨3, 4, 0, 0⟩, ⟨300, 0, 0, 0⟩,
            ⟨400, 0, 0, 0⟩, ⟨0, 0, 0, 0⟩]
          width := 500, height := 500, dragged := draggedNone }
        [⟨MessageType.Click, 0, 0⟩]
      = Outcome.returned false
        ({ readBuffer := []
           writeBuffer := [⟨100, 0, 0, 0⟩, ⟨200, 0, 0, 0⟩, ⟨300, 0, 0, 0⟩,
             ⟨400, 0, 0, 0⟩, ⟨0, 0, 0, 0⟩]
           width := 500, height := 500, dragged := draggedNone } : Logic ℝ) :=
  (click_removes_first_match Real.sqrt isSqrt_real
    { readBuffer := []
      writeBuffer := [⟨100, 0, 0, 0⟩, ⟨200, 0, 0, 0⟩, ⟨3, 4, 0, 0⟩, ⟨300, 0, 0, 0⟩,
        ⟨400, 0, 0, 0⟩, ⟨0, 0, 0, 0⟩]
      width := 500, height := 500, dragged := draggedNone } 0 0 2 ⟨3, 4, 0, 0⟩ rfl
    (by norm_num [withinRadius, Particle.Radius])
    (by
      intro j p hj hp
      interval_cases j
      · simp only [List.getElem?_cons_zero, Option.some.injEq] at hp
        rw [← hp]
        norm_num [withinRadius, Particle.Radius]
      · simp only [List.getElem?_cons_succ, List.getElem?_cons_zero, Option.some.injEq] at hp
        rw [← hp]
        norm_num [withinRadius, Particle.Radius])).1

/-- C8: when no particle of the write buffer is within `Radius` of `(x, y)`,
handling a Click at `(x, y)` appends exactly one particle with position
`(x, y)` and velocity `(0, 0)` at the end of the write buffer, leaves every
existing particle at its index, and leaves the read buffer, the dragged index
and the domain bounds unchanged. -/
theorem click_appends_when_no_match (sqrt : F → F) (hs : IsSqrt sqrt) (s : Logic F)
    (x y : Int)
    (hnone : ∀ (j : Nat) (p : Particle F), s.writeBuffer[j]? = some p →
      ¬ withinRadius p x y) :
    ∃ s' : Logic F,
      processMessages sqrt s [⟨MessageType.Click, x, y⟩] = Outcome.returned false s'
      ∧ s'.writeBuffer = s.writeBuffer ++ [⟨(x : F), (y : F), 0, 0⟩]
      ∧ s'.writeBuffer.length = s.writeBuffer.length + 1
      ∧ (∀ j : Nat, j < s.writeBuffer.length → s'.writeBuffer[j]? = s.writeBuffer[j]?)
      ∧ s'.writeBuffer[s.writeBuffer.length]? = some ⟨(x : F), (y : F), 0, 0⟩
      ∧ s'.readBuffer = s.readBuffer
      ∧ s'.dragged = s.dragged
      ∧ s'.width = s.width
      ∧ s'.height = s.height := by
  have hf : findParticle sqrt s x y = s.writeBuffer.length := by
    obtain ⟨h1, _, h3⟩ := findParticle_scan sqrt hs s x y
    by_contra hne
    obtain ⟨p, hp, hpn⟩ := h3 (lt_of_le_of_ne h1 hne)
    exact hnone _ p hp hpn
  refine ⟨{ s with writeBuffer := s.writeBuffer ++ [⟨(x : F), (y : F), 0, 0⟩] },
    ?_, rfl, by simp, ?_, ?_, rfl, rfl, rfl, rfl⟩
  · rw [processMessages_single]
    simp only [handleMessage, hf, lt_irrefl, if_false]
  · intro j hj
    exact List.getElem?_append_left hj
  · exact List.getElem?_concat_length _ _

/-- Witness of C8: a Click at `(50, 50)` with the only particle at `(3, 4)`,
over the reals. -/
theorem click_appends_when_no_match_witness :
    ∃ s' : Logic ℝ,
      processMessages Real.sqrt
          { readBuffer := [], writeBuffer := [⟨3, 4, 0, 0⟩]
            width := 100, height := 100, dragged := 0 }
          [⟨MessageType.Click, 50, 50⟩] = Outcome.returned false s'
      ∧ s'.writeBuffer = [⟨3, 4, 0, 0⟩] ++ [⟨((50 : Int) : ℝ), ((50 : Int) : ℝ), 0, 0⟩]
      ∧ s'.writeBuffer.length = 1 + 1
      ∧ (∀ j : Nat, j < 1 → s'.writeBuffer[j]? = [(⟨3, 4, 0, 0⟩ : Particle ℝ)][j]?)
      ∧ s'.writeBuffer[1]? = some ⟨((50 : Int) : ℝ), ((50 : Int) : ℝ), 0, 0⟩
      ∧ s'.readBuffer = []
      ∧ s'.dragged = 0
      ∧ s'.width = 100
      ∧ s'.height = 100 :=
  click_appends_when_no_match Real.sqrt isSqrt_real
    { readBuffer := [], writeBuffer := [⟨3, 4, 0, 0⟩]
      width := 100, height := 100, dragged := 0 } 50 50
    (by
      intro j p hp
      cases j with
      | zero =>
        simp only [List.getElem?_cons_zero, Option.some.injEq] at hp
        rw [← hp]
        norm_num [withinRadius, Particle.Radius]
      | succ j => simp at hp)

/-! ## Buffer lengths through one loop iteration -/

lemma resize_length (n : Nat) (w : List (Particle F)) : (resize n w).length = n := by
  unfold resize
  simp only [List.length_append, List.length_take, List.length_replicate]
  omega

/-- Effect of one recognised message other than `Stop`: the handler goes on,
the read buffer is untouched, and the write buffer keeps its length unless the
message is a Click. -/
lemma handleMessage_next (sqrt : F → F) (s : Logic F) (m : Message)
    (h1 : m.type ≠ MessageType.Stop) (h2 : m.type ≠ MessageType.Error) :
    ∃ s' : Logic F, handleMessage sqrt s m = Handled.next s'
      ∧ s'.readBuffer = s.readBuffer
      ∧ (m.type ≠ MessageType.Click → s'.writeBuffer.length = s.writeBuffer.length) := by
  obtain ⟨t, x, y⟩ := m
  cases t with
  | Click =>
    simp only [handleMessage]
    split
    · exact ⟨_, rfl, rfl, fun h => absurd rfl h⟩
    · exact ⟨_, rfl, rfl, fun h => absurd rfl h⟩
  | Drag =>
    simp only [handleMessage]
    split
    · exact ⟨_, rfl, rfl, fun _ => rfl⟩
    · exact ⟨_, rfl, rfl, fun _ => rfl⟩
  | Move =>
    simp only [handleMessage]
    split
    · exact ⟨_, rfl, rfl, fun _ => by simp⟩
    · exact ⟨_, rfl, rfl, fun _ => rfl⟩
  | Release =>
    simp only [handleMessage]
    split
    · exact ⟨_, rfl, rfl, fun _ => by simp⟩
    · exact ⟨_, rfl, rfl, fun _ => rfl⟩
  | Resize => exact ⟨_, rfl, rfl, fun _ => rfl⟩
  | Stop => exact absurd rfl h1
  | Error => exact absurd rfl h2

/-- A batch of recognised messages without `Stop` is drained: `processMessages`
returns `false`, the read buffer is untouched, and the write buffer keeps its
length when the batch has no Click. -/
lemma processMessages_drained (sqrt : F → F) (batch : List Message) (s : Logic F)
    (hb : ∀ m ∈ batch, m.type ≠ MessageType.Stop ∧ m.type ≠ MessageType.Error) :
    ∃ s' : Logic F, processMessages sqrt s batch = Outcome.returned false s'
      ∧ s'.readBuffer = s.readBuffer
      ∧ ((∀ m ∈ batch, m.type ≠ MessageType.Click) →
          s'.writeBuffer.length = s.writeBuffer.length) := by
  induction batch generalizing s with
  | nil => exact ⟨s, rfl, rfl, fun _ => rfl⟩
  | cons m ms ih =>
    obtain ⟨s1, e1, r1, w1⟩ := handleMessage_next sqrt s m
      (hb m (List.mem_cons_self _ _)).1 (hb m (List.mem_cons_self _ _)).2
    obtain ⟨s2, e2, r2, w2⟩ := ih s1 (fun m' hm' => hb m' (List.mem_cons_of_mem _ hm'))
    refine ⟨s2, ?_, by rw [r2, r1], ?_⟩
    · simp only [processMessages, e1]
      exact e2
    · intro hc
      rw [w2 (fun m' hm' => hc m' (List.mem_cons_of_mem _ hm')),
        w1 (hc m (List.mem_cons_self _ _))]

/-- C9 (as amended): in every loop iteration of `run` the read and write
sequences have equal length immediately after the resize of step (1); for
every batch of recognised messages without `Stop` the iteration reaches
`swapBuffers`, after which the write sequence has the length the read sequence
had at the start of the iteration and the read sequence has the length of the
write sequence as the batch left it; the two are equal when the batch contains
no Click. -/
theorem run_iteration_lengths (sqrt : F → F) (s : Logic F) (batch : List Message)
    (hb : ∀ m ∈ batch, m.type ≠ MessageType.Stop ∧ m.type ≠ MessageType.Error) :
    (resizeWrite s).writeBuffer.length = (resizeWrite s).readBuffer.length
      ∧ ∃ s' : Logic F,
          processMessages sqrt (updateParticles sqrt (resizeWrite s)) batch
            = Outcome.returned false s'
          ∧ runIteration sqrt s batch = Iteration.swapped (swapBuffers s')
          ∧ (swapBuffers s').writeBuffer.length = s.readBuffer.length
          ∧ (swapBuffers s').readBuffer.length = s'.writeBuffer.length
          ∧ ((∀ m ∈ batch, m.type ≠ MessageType.Click) →
              (swapBuffers s').readBuffer.length = (swapBuffers s').writeBuffer.length) := by
  have hres : (resizeWrite s).writeBuffer.length = (resizeWrite s).readBuffer.length := by
    simp only [resizeWrite]
    exact resize_length _ _
  refine ⟨hres, ?_⟩
  obtain ⟨s', e, r, w⟩ :=
    processMessages_drained sqrt batch (updateParticles sqrt (resizeWrite s)) hb
  have hr : s'.readBuffer.length = s.readBuffer.length := by
    rw [r]
    rfl
  refine ⟨s', e, ?_, hr, rfl, ?_⟩
  · simp only [runIteration, e]
  · intro hc
    have hw : s'.writeBuffer.length = s.readBuffer.length := by
      rw [w hc, updateParticles_length, hres]
      rfl
    simp only [swapBuffers]
    rw [hw, hr]

/-- Witness of C9 (as amended): an iteration on one particle with the batch
Drag, Move, Resize, over the reals. -/
theorem run_iteration_lengths_witness :
    (resizeWrite ({ readBuffer := [⟨50, 50, 0, 0⟩], writeBuffer := []
                    width := 100, height := 100, dragged := draggedNone } : Logic ℝ)
        ).writeBuffer.length
        = (resizeWrite ({ readBuffer := [⟨50, 50, 0, 0⟩], writeBuffer := []
                          width := 100, height := 100, dragged := draggedNone } : Logic ℝ)
          ).readBuffer.length
      ∧ ∃ s' : Logic ℝ,
          processMessages Real.sqrt (updateParticles Real.sqrt (resizeWrite
              { readBuffer := [⟨50, 50, 0, 0⟩], writeBuffer := []
                width := 100, height := 100, dragged := draggedNone }))
            [⟨MessageType.Drag, 50, 50⟩, ⟨MessageType.Move, 60, 60⟩,
              ⟨MessageType.Resize, 200, 200⟩]
            = Outcome.returned false s'
          ∧ runIteration Real.sqrt
              { readBuffer := [⟨50, 50, 0, 0⟩], writeBuffer := []
                width := 100, height := 100, dragged := draggedNone }
              [⟨MessageType.Drag, 50, 50⟩, ⟨MessageType.Move, 60, 60⟩,
                ⟨MessageType.Resize, 200, 200⟩]
            = Iteration.swapped (swapBuffers s')
          ∧ (swapBuffers s').writeBuffer.length = 1
          ∧ (swapBuffers s').readBuffer.length = s'.writeBuffer.length
          ∧ ((∀ m ∈ [(⟨MessageType.Drag, 50, 50⟩ : Message), ⟨MessageType.Move, 60, 60⟩,
                ⟨MessageType.Resize, 200, 200⟩], m.type ≠ MessageType.Click) →
              (swapBuffers s').readBuffer.length = (swapBuffers s').writeBuffer.length) :=
  run_iteration_lengths Real.sqrt
    { readBuffer := [⟨50, 50, 0, 0⟩], writeBuffer := []
      width := 100, height := 100, dragged := draggedNone }
    [⟨MessageType.Drag, 50, 50⟩, ⟨MessageType.Move, 60, 60⟩, ⟨MessageType.Resize, 200, 200⟩]
    (by decide)

/-- Counterexample to C9 as stated: from empty buffers, the iteration whose
batch is a single Click (no `Stop`) ends, immediately after `swapBuffers`, with
a read sequence of length 1 and a write sequence of length 0. -/
theorem run_iteration_lengths_counterexample :
    runIteration Real.sqrt
        { readBuffer := [], writeBuffer := []
          width := 100, height := 100, dragged := draggedNone }
        [⟨MessageType.Click, 50, 50⟩]
      = Iteration.swapped
          ({ readBuffer := [⟨((50 : Int) : ℝ), ((50 : Int) : ℝ), 0, 0⟩], writeBuffer := []
             width := 100, height := 100, dragged := draggedNone } : Logic ℝ)
      ∧ [(⟨((50 : Int) : ℝ), ((50 : Int) : ℝ), 0, 0⟩ : Particle ℝ)].length
          ≠ ([] : List (Particle ℝ)).length := by
  constructor
  · simp [runIteration, resizeWrite, resize, updateParticles, processMessages, handleMessage,
      findParticle, findParticleFrom, swapBuffers]
  · decide

/-! ## Drag isolation -/

/-- Contribution of an index to the force sum depends on the read buffer only
through the particles at indices other than the dragged one. -/
lemma accelTerm_congr (sqrt : F → F) (r1 r2 : List (Particle F)) (k i : Nat)
    (p : Particle F) (hdiff : ∀ j : Nat, j ≠ k → r1[j]? = r2[j]?) (j : Nat) :
    accelTerm sqrt r1 k i p j = accelTerm sqrt r2 k i p j := by
  unfold accelTerm
  by_cases h : j = k ∨ i = j
  · rw [if_pos h, if_pos h]
  · rw [if_neg h, if_neg h, hdiff j (fun e => h (Or.inl e))]

/-- Force sum of a particle is the same for two read buffers of equal length
that differ only at the dragged index. -/
lemma accel_congr (sqrt : F → F) (r1 r2 : List (Particle F)) (k i : Nat) (p : Particle F)
    (hlen : r1.length = r2.length) (hdiff : ∀ j : Nat, j ≠ k → r1[j]? = r2[j]?) :
    accel sqrt r1 k i p = accel sqrt r2 k i p := by
  unfold accel
  rw [accel_foldl, accel_foldl, hlen]
  simp only [accelTerm_congr sqrt r1 r2 k i p hdiff]

/-- C10: drag isolation as noninterference.  For a dragged index `k` and two
states with the same domain whose read buffers have equal length and differ
only in the particle at index `k`, every particle has the same force sum in
both states (the dragged particle contributes nothing to it) and
`updateParticles` writes identical particles at every index `i ≠ k`. -/
theorem drag_noninterference (sqrt : F → F) (s1 s2 : Logic F) (k : Nat)
    (hd1 : s1.dragged = k) (hd2 : s2.dragged = k)
    (hwidth : s1.width = s2.width) (hheight : s1.height = s2.height)
    (hlen : s1.readBuffer.length = s2.readBuffer.length)
    (hdiff : ∀ j : Nat, j ≠ k → s1.readBuffer[j]? = s2.readBuffer[j]?)
    (hw1 : s1.writeBuffer.length = s1.readBuffer.length)
    (hw2 : s2.writeBuffer.length = s2.readBuffer.length) :
    (∀ (i : Nat) (p : Particle F),
        accel sqrt s1.readBuffer k i p = accel sqrt s2.readBuffer k i p)
      ∧ (∀ i : Nat, i ≠ k →
          (updateParticles sqrt s1).writeBuffer[i]?
            = (updateParticles sqrt s2).writeBuffer[i]?) := by
  refine ⟨fun i p => accel_congr sqrt _ _ k i p hlen hdiff, ?_⟩
  intro i hik
  by_cases hi : i < s1.readBuffer.length
  · have hp1 : s1.readBuffer[i]? = some (s1.readBuffer[i]) := List.getElem?_eq_getElem hi
    have hp2 : s2.readBuffer[i]? = some (s1.readBuffer[i]) := by
      rw [← hdiff i hik]
      exact hp1
    rw [updateParticles_getElem? sqrt s1 i _ hp1 hw1,
      updateParticles_getElem? sqrt s2 i _ hp2 hw2]
    rw [integrate_of_ne sqrt _ _ _ _ _ _ (by rw [hd1]; exact hik),
      integrate_of_ne sqrt _ _ _ _ _ _ (by rw [hd2]; exact hik)]
    rw [hd1, hd2, hwidth, hheight, accel_congr sqrt _ _ k i _ hlen hdiff]
  · rw [List.getElem?_eq_none, List.getElem?_eq_none]
    · rw [updateParticles_length]
      omega
    · rw [updateParticles_length]
      omega

/-- Witness of C10: particle 1 is dragged and sits at `(20, 20)` in one read
buffer and at `(90, 90)` in the other; particles 0 and 2 are the same. -/
theorem drag_noninterference_witness :
    (∀ (i : Nat) (p : Particle ℝ),
        accel Real.sqrt [⟨10, 10, 1, 0⟩, ⟨20, 20, 0, 0⟩, ⟨30, 40, 0, 2⟩] 1 i p
          = accel Real.sqrt [⟨10, 10, 1, 0⟩, ⟨90, 90, 5, 5⟩, ⟨30, 40, 0, 2⟩] 1 i p)
      ∧ (∀ i : Nat, i ≠ 1 →
          (updateParticles Real.sqrt
              { readBuffer := [⟨10, 10, 1, 0⟩, ⟨20, 20, 0, 0⟩, ⟨30, 40, 0, 2⟩]
                writeBuffer := [⟨0, 0, 0, 0⟩, ⟨0, 0, 0, 0⟩, ⟨0, 0, 0, 0⟩]
                width := 100, height := 100, dragged := 1 }).writeBuffer[i]?
            = (updateParticles Real.sqrt
              { readBuffer := [⟨10, 10, 1, 0⟩, ⟨90, 90, 5, 5⟩, ⟨30, 40, 0, 2⟩]
                writeBuffer := [⟨1, 1, 1, 1⟩, ⟨2, 2, 2, 2⟩, ⟨3, 3, 3, 3⟩]
                width := 100, height := 100, dragged := 1 }).writeBuffer[i]?) :=
  drag_noninterference Real.sqrt
    { readBuffer := [⟨10, 10, 1, 0⟩, ⟨20, 20, 0, 0⟩, ⟨30, 40, 0, 2⟩]
      writeBuffer := [⟨0, 0, 0, 0⟩, ⟨0, 0, 0, 0⟩, ⟨0, 0, 0, 0⟩]
      width := 100, height := 100, dragged := 1 }
    { readBuffer := [⟨10, 10, 1, 0⟩, ⟨90, 90, 5, 5⟩, ⟨30, 40, 0, 2⟩]
      writeBuffer := [⟨1, 1, 1, 1⟩, ⟨2, 2, 2, 2⟩, ⟨3, 3, 3, 3⟩]
      width := 100, height := 100, dragged := 1 }
    1 rfl rfl rfl rfl rfl
    (by
      intro j hj
      match j, hj with
      | 0, _ => rfl
      | 1, h => exact absurd rfl h
      | 2, _ => rfl
      | (n + 3), _ => rfl)
    rfl rfl

/-! ## The dragged particle -/

/-- Particle written for the dragged index: the `else` branch of the outer
loop keeps the position and stores velocity `(0, 0)`. -/
lemma integrate_of_eq (sqrt : F → F) (read : List (Particle F)) (width height : F)
    (dragged : Nat) (p : Particle F) :
    integrate sqrt read width height dragged dragged p = ⟨p.x, p.y, 0, 0⟩ := by
  unfold integrate
  simp

/-- Effect of Move on the state: the guarded assignment of lines 151-156. -/
lemma handleMessage_move (sqrt : F → F) (s : Logic F) (x y : Int) :
    handleMessage sqrt s ⟨MessageType.Move, x, y⟩
      = Handled.next
          (if s.dragged < s.writeBuffer.length then
            { s with writeBuffer := s.writeBuffer.set s.dragged ⟨(x : F), (y : F), 0, 0⟩ }
          else s) := by
  simp only [handleMessage]
  split <;> rfl

/-- Effect of Release on the state: the guarded assignment of lines 161-166,
then `dragged = -1`. -/
lemma handleMessage_release (sqrt : F → F) (s : Logic F) (x y : Int) :
    handleMessage sqrt s ⟨MessageType.Release, x, y⟩
      = Handled.next
          { (if s.dragged < s.writeBuffer.length then
              { s with writeBuffer := s.writeBuffer.set s.dragged ⟨(x : F), (y : F), 0, 0⟩ }
            else s) with dragged := draggedNone } := by
  simp only [handleMessage]
  split <;> rfl

/-- Effect of Drag on the state: only the dragged index may change. -/
lemma handleMessage_drag (sqrt : F → F) (s : Logic F) (x y : Int) :
    handleMessage sqrt s ⟨MessageType.Drag, x, y⟩
      = Handled.next
          { s with dragged :=
              if findParticle sqrt s x y < s.writeBuffer.length then findParticle sqrt s x y
              else s.dragged } := by
  simp only [handleMessage]
  split <;> rfl

/-- C12: for every read buffer and every dragged index within its length,
`updateParticles` writes at the dragged index a particle whose position is the
read buffer's position of that particle and whose velocity is `(0, 0)`,
whatever the other particles and the domain bounds are. -/
theorem updateParticles_dragged_frozen (sqrt : F → F) (s : Logic F) (p : Particle F)
    (hw : s.writeBuffer.length = s.readBuffer.length)
    (hp : s.readBuffer[s.dragged]? = some p) :
    (updateParticles sqrt s).writeBuffer[s.dragged]? = some ⟨p.x, p.y, 0, 0⟩ := by
  rw [updateParticles_getElem? sqrt s s.dragged p hp hw, integrate_of_eq]

/-- Witness of C12: the dragged particle 1 lies outside the `100 x 100` domain
and moves, next to another particle; it is written at its place with velocity
`(0, 0)`. -/
theorem updateParticles_dragged_frozen_witness :
    (updateParticles Real.sqrt
        { readBuffer := [⟨10, 10, 1, 0⟩, ⟨500, -3, 5, 5⟩]
          writeBuffer := [⟨0, 0, 0, 0⟩, ⟨0, 0, 0, 0⟩]
          width := 100, height := 100, dragged := 1 }).writeBuffer[1]?
      = some ⟨500, -3, 0, 0⟩ :=
  updateParticles_dragged_frozen Real.sqrt
    { readBuffer := [⟨10, 10, 1, 0⟩, ⟨500, -3, 5, 5⟩]
      writeBuffer := [⟨0, 0, 0, 0⟩, ⟨0, 0, 0, 0⟩]
      width := 100, height := 100, dragged := 1 } ⟨500, -3, 5, 5⟩ rfl rfl

lemma zeroVelocityAt_set (w : List (Particle F)) (k : Nat) (hk : k < w.length) (x y : F) :
    zeroVelocityAt (w.set k ⟨x, y, 0, 0⟩) k :=
  ⟨⟨x, y, 0, 0⟩, List.getElem?_set_self hk, rfl, rfl⟩

/-- Effect of Click on the state: erase at the index found, or append. -/
lemma handleMessage_click (sqrt : F → F) (s : Logic F) (x y : Int) :
    handleMessage sqrt s ⟨MessageType.Click, x, y⟩
      = Handled.next
          (if findParticle sqrt s x y < s.writeBuffer.length then
            { s with writeBuffer := s.writeBuffer.eraseIdx (findParticle sqrt s x y) }
          else
            { s with writeBuffer := s.writeBuffer ++ [⟨(x : F), (y : F), 0, 0⟩] }) := by
  simp only [handleMessage]
  split <;> rfl

lemma zeroVelocityAt_lt (w : List (Particle F)) (k : Nat) (h : zeroVelocityAt w k) :
    k < w.length := by
  obtain ⟨p, hp, _⟩ := h
  by_contra hc
  rw [List.getElem?_eq_none (by omega)] at hp
  exact Option.noConfusion hp

/-- Zero velocity at an index is kept by every recognised message, a Click
that removes a particle being required to remove one at a higher index. -/
lemma zeroVelocityAt_handled (sqrt : F → F) (s : Logic F) (k : Nat) (m : Message)
    (hm : isRecognised m.type)
    (hclick : m.type = MessageType.Click →
      findParticle sqrt s m.x m.y < s.writeBuffer.length → k < findParticle sqrt s m.x m.y)
    (hz : zeroVelocityAt s.writeBuffer k) :
    ∃ s' : Logic F,
      processMessages sqrt s [m] = Outcome.returned (decide (m.type = MessageType.Stop)) s'
        ∧ zeroVelocityAt s'.writeBuffer k := by
  obtain ⟨t, x, y⟩ := m
  have hklen := zeroVelocityAt_lt _ _ hz
  rw [processMessages_single]
  cases t with
  | Click =>
    rw [handleMessage_click]
    by_cases hf : findParticle sqrt s x y < s.writeBuffer.length
    · rw [if_pos hf]
      refine ⟨_, rfl, ?_⟩
      obtain ⟨p, hp, hv⟩ := hz
      exact ⟨p, by rw [List.getElem?_eraseIdx_of_lt _ _ _ (hclick rfl hf)]; exact hp, hv⟩
    · rw [if_neg hf]
      refine ⟨_, rfl, ?_⟩
      obtain ⟨p, hp, hv⟩ := hz
      exact ⟨p, by rw [List.getElem?_append_left hklen]; exact hp, hv⟩
  | Drag =>
    rw [handleMessage_drag]
    exact ⟨_, rfl, hz⟩
  | Move =>
    rw [handleMessage_move]
    by_cases hk : s.dragged < s.writeBuffer.length
    · rw [if_pos hk]
      refine ⟨_, rfl, ?_⟩
      by_cases hkd : s.dragged = k
      · rw [← hkd]
        exact zeroVelocityAt_set _ _ hk _ _
      · obtain ⟨p, hp, hv⟩ := hz
        exact ⟨p, by rw [List.getElem?_set_ne hkd]; exact hp, hv⟩
    · rw [if_neg hk]
      exact ⟨_, rfl, hz⟩
  | Release =>
    rw [handleMessage_release]
    by_cases hk : s.dragged < s.writeBuffer.length
    · rw [if_pos hk]
      refine ⟨_, rfl, ?_⟩
      by_cases hkd : s.dragged = k
      · rw [← hkd]
        exact zeroVelocityAt_set _ _ hk _ _
      · obtain ⟨p, hp, hv⟩ := hz
        exact ⟨p, by rw [List.getElem?_set_ne hkd]; exact hp, hv⟩
    · rw [if_neg hk]
      exact ⟨_, rfl, hz⟩
  | Resize => exact ⟨_, rfl, hz⟩
  | Stop => exact ⟨_, rfl, hz⟩
  | Error =>
    simp [isRecognised] at hm

/-- C11 (as amended): while particle `k` is the dragged one, its velocity in
the write buffer is `(0, 0)` after every integrator step (for `k` within the
read buffer) and after every Move or Release step (for `k` within the write
buffer); and the velocity `(0, 0)` at an index `k` of the write buffer is kept
by every handler step of a recognised message (Click, Drag, Move, Release,
Resize, Stop), except a Click that removes the particle at index `k` or at a
lower index. -/
theorem dragged_velocity_zero (sqrt : F → F) (s : Logic F) :
    (s.dragged < s.readBuffer.length → s.writeBuffer.length = s.readBuffer.length →
        zeroVelocityAt (updateParticles sqrt s).writeBuffer s.dragged)
      ∧ (∀ m : Message, m.type = MessageType.Move ∨ m.type = MessageType.Release →
          s.dragged < s.writeBuffer.length →
          ∃ s' : Logic F, processMessages sqrt s [m] = Outcome.returned false s'
            ∧ zeroVelocityAt s'.writeBuffer s.dragged)
      ∧ (∀ (k : Nat) (m : Message), isRecognised m.type →
          (m.type = MessageType.Click →
            findParticle sqrt s m.x m.y < s.writeBuffer.length →
            k < findParticle sqrt s m.x m.y) →
          zeroVelocityAt s.writeBuffer k →
          ∃ s' : Logic F,
            processMessages sqrt s [m]
                = Outcome.returned (decide (m.type = MessageType.Stop)) s'
              ∧ zeroVelocityAt s'.writeBuffer k) := by
  refine ⟨?_, ?_, ?_⟩
  · intro hk hw
    refine ⟨⟨(s.readBuffer[s.dragged]).x, (s.readBuffer[s.dragged]).y, 0, 0⟩, ?_, rfl, rfl⟩
    rw [updateParticles_getElem? sqrt s s.dragged _ (List.getElem?_eq_getElem hk) hw,
      integrate_of_eq]
  · rintro ⟨t, x, y⟩ ht hk
    rcases ht with ht | ht
    · simp only at ht
      subst ht
      rw [processMessages_single, handleMessage_move, if_pos hk]
      exact ⟨_, rfl, zeroVelocityAt_set _ _ hk _ _⟩
    · simp only at ht
      subst ht
      rw [processMessages_single, handleMessage_release, if_pos hk]
      exact ⟨_, rfl, zeroVelocityAt_set _ _ hk _ _⟩
  · intro k m hm hclick hz
    exact zeroVelocityAt_handled sqrt s k m hm hclick hz

/-- Witness of C11 (as amended): particle 0, at `(80, 80)` with velocity
`(0, 0)`, is the dragged one; a Click at `(50, 50)` removes the particle at
index 1 and particle 0 keeps its velocity `(0, 0)`. -/
theorem dragged_velocity_zero_witness :
    ∃ s' : Logic ℝ,
      processMessages Real.sqrt
          { readBuffer := [], writeBuffer := [⟨80, 80, 0, 0⟩, ⟨50, 50, 1, 0⟩]
            width := 100, height := 100, dragged := 0 }
          [⟨MessageType.Click, 50, 50⟩] = Outcome.returned false s'
        ∧ zeroVelocityAt s'.writeBuffer 0 := by
  have hF : findParticle Real.sqrt
      ({ readBuffer := [], writeBuffer := [⟨80, 80, 0, 0⟩, ⟨50, 50, 1, 0⟩]
         width := 100, height := 100, dragged := 0 } : Logic ℝ) 50 50 = 1 :=
    findParticle_eq_of_least Real.sqrt isSqrt_real _ 50 50 1 ⟨50, 50, 1, 0⟩ rfl
      (by norm_num [withinRadius, Particle.Radius])
      (by
        intro j p hj hp
        interval_cases j
        simp only [List.getElem?_cons_zero, Option.some.injEq] at hp
        rw [← hp]
        norm_num [withinRadius, Particle.Radius])
  exact (dragged_velocity_zero Real.sqrt
    { readBuffer := [], writeBuffer := [⟨80, 80, 0, 0⟩, ⟨50, 50, 1, 0⟩]
      width := 100, height := 100, dragged := 0 }).2.2 0 ⟨MessageType.Click, 50, 50⟩
    (Or.inl rfl) (fun _ _ => by rw [hF]; exact Nat.zero_lt_one)
    ⟨⟨80, 80, 0, 0⟩, rfl, rfl, rfl⟩

/-- Counterexample to C11 as stated.  First: an iteration that starts with one
particle of velocity `(1, 0)` at `(50, 50)` integrates it and then handles Drag
at `(50, 50)`; right after that handler step particle 0 is the dragged one and
the write buffer, which the following swap publishes, holds it with velocity
`(1, 0)`.  Second: with index 1 dragged and at velocity `(0, 0)`, a Click at
`(50, 50)` removes the particle at index 0; the dragged index is still 1 and
the write buffer now holds at index 1 a particle with velocity `(1, 0)`. -/
theorem dragged_velocity_counterexample :
    (processMessages Real.sqrt
        (updateParticles Real.sqrt (resizeWrite
          { readBuffer := [⟨50, 50, 1, 0⟩], writeBuffer := []
            width := 100, height := 100, dragged := draggedNone }))
        [⟨MessageType.Drag, 50, 50⟩]
      = Outcome.returned false
          ({ readBuffer := [⟨50, 50, 1, 0⟩], writeBuffer := [⟨50 + 3 / 100, 50, 1, 0⟩]
             width := 100, height := 100, dragged := 0 } : Logic ℝ)
      ∧ ¬ zeroVelocityAt [(⟨50 + 3 / 100, 50, 1, 0⟩ : Particle ℝ)] 0)
    ∧ (zeroVelocityAt [(⟨50, 50, 0, 0⟩ : Particle ℝ), ⟨80, 80, 0, 0⟩, ⟨20, 20, 1, 0⟩] 1
      ∧ processMessages Real.sqrt
          { readBuffer := []
            writeBuffer := [⟨50, 50, 0, 0⟩, ⟨80, 80, 0, 0⟩, ⟨20, 20, 1, 0⟩]
            width := 100, height := 100, dragged := 1 }
          [⟨MessageType.Click, 50, 50⟩]
        = Outcome.returned false
            ({ readBuffer := [], writeBuffer := [⟨80, 80, 0, 0⟩, ⟨20, 20, 1, 0⟩]
               width := 100, height := 100, dragged := 1 } : Logic ℝ)
      ∧ ¬ zeroVelocityAt [(⟨80, 80, 0, 0⟩ : Particle ℝ), ⟨20, 20, 1, 0⟩] 1) := by
  have hU : updateParticles Real.sqrt (resizeWrite
        { readBuffer := [⟨50, 50, 1, 0⟩], writeBuffer := []
          width := 100, height := 100, dragged := draggedNone })
      = ({ readBuffer := [⟨50, 50, 1, 0⟩], writeBuffer := [⟨50 + 3 / 100, 50, 1, 0⟩]
           width := 100, height := 100, dragged := draggedNone } : Logic ℝ) := by
    simp only [updateParticles, resizeWrite, resize, List.length_singleton, List.range_succ,
      List.range_zero, List.nil_append, List.foldl_cons, List.foldl_nil, updateStep,
      List.take_nil, List.length_nil, List.replicate, List.getElem?_cons_zero, List.set_cons_zero]
    rw [integrate_of_ne Real.sqrt _ _ _ _ _ _ (by decide)]
    simp only [accel, List.length_singleton, List.range_succ, List.range_zero, List.nil_append,
      List.foldl_cons, List.foldl_nil, accelStep]
    norm_num [Particle.Radius, Logic.dt, draggedNone]
  have hF : findParticle Real.sqrt
      ({ readBuffer := [⟨50, 50, 1, 0⟩], writeBuffer := [⟨50 + 3 / 100, 50, 1, 0⟩]
         width := 100, height := 100, dragged := draggedNone } : Logic ℝ) 50 50 = 0 :=
    findParticle_eq_of_least Real.sqrt isSqrt_real _ 50 50 0 ⟨50 + 3 / 100, 50, 1, 0⟩ rfl
      (by norm_num [withinRadius, Particle.Radius])
      (fun j p hj => absurd hj (Nat.not_lt_zero j))
  have hG : findParticle Real.sqrt
      ({ readBuffer := []
         writeBuffer := [⟨50, 50, 0, 0⟩, ⟨80, 80, 0, 0⟩, ⟨20, 20, 1, 0⟩]
         width := 100, height := 100, dragged := 1 } : Logic ℝ) 50 50 = 0 :=
    findParticle_eq_of_least Real.sqrt isSqrt_real _ 50 50 0 ⟨50, 50, 0, 0⟩ rfl
      (by norm_num [withinRadius, Particle.Radius])
      (fun j p hj => absurd hj (Nat.not_lt_zero j))
  refine ⟨⟨?_, ?_⟩, ⟨⟨⟨80, 80, 0, 0⟩, rfl, rfl, rfl⟩, ?_, ?_⟩⟩
  · rw [hU, processMessages_single, handleMessage_drag, hF]
    rfl
  · rintro ⟨p, hp, hvx, _⟩
    simp only [List.getElem?_cons_zero, Option.some.injEq] at hp
    rw [← hp] at hvx
    norm_num at hvx
  · rw [processMessages_single, handleMessage_click, hG]
    rfl
  · rintro ⟨p, hp, hvx, _⟩
    simp only [List.getElem?_cons_succ, List.getElem?_cons_zero, Option.some.injEq] at hp
    rw [← hp] at hvx
    norm_num at hvx

/-! ## Drag, Move and Release -/

/-- C13: handling a Drag message never changes the write buffer, the read
buffer or the domain bounds; it sets the dragged index to the first particle
(by index) within `Radius` of the point when there is one, and is otherwise a
complete no-op that leaves the dragged index at its previous value. -/
theorem drag_selects_first_match (sqrt : F → F) (hs : IsSqrt sqrt) (s : Logic F) (x y : Int) :
    ∃ s' : Logic F,
      processMessages sqrt s [⟨MessageType.Drag, x, y⟩] = Outcome.returned false s'
      ∧ s'.writeBuffer = s.writeBuffer
      ∧ s'.readBuffer = s.readBuffer
      ∧ s'.width = s.width
      ∧ s'.height = s.height
      ∧ (∀ (k : Nat) (pk : Particle F), s.writeBuffer[k]? = some pk → withinRadius pk x y →
          (∀ (j : Nat) (p : Particle F), j < k → s.writeBuffer[j]? = some p →
            ¬ withinRadius p x y) →
          s'.dragged = k)
      ∧ ((∀ (j : Nat) (p : Particle F), s.writeBuffer[j]? = some p → ¬ withinRadius p x y) →
          s' = s) := by
  refine ⟨{ s with dragged :=
              if findParticle sqrt s x y < s.writeBuffer.length then findParticle sqrt s x y
              else s.dragged },
    by rw [processMessages_single, handleMessage_drag], rfl, rfl, rfl, rfl, ?_, ?_⟩
  · intro k pk hk hin hleast
    have hklen : k < s.writeBuffer.length := by
      by_contra hc
      rw [List.getElem?_eq_none (by omega)] at hk
      exact Option.noConfusion hk
    have hf := findParticle_eq_of_least sqrt hs s x y k pk hk hin hleast
    simp only [hf, if_pos hklen]
  · intro hnone
    obtain ⟨h1, _, h3⟩ := findParticle_scan sqrt hs s x y
    have hf : ¬ findParticle sqrt s x y < s.writeBuffer.length := by
      intro hlt
      obtain ⟨p, hp, hpn⟩ := h3 hlt
      exact hnone _ p hp hpn
    simp only [if_neg hf]

/-- Witness of C13: Drag at `(0, 0)` with particles at `(100, 0)`, `(3, 4)` and
`(0, 0)`; the result selects index 1. -/
theorem drag_selects_first_match_witness :
    ∃ s' : Logic ℝ,
      processMessages Real.sqrt
          { readBuffer := []
            writeBuffer := [⟨100, 0, 0, 0⟩, ⟨3, 4, 0, 0⟩, ⟨0, 0, 0, 0⟩]
            width := 500, height := 500, dragged := draggedNone }
          [⟨MessageType.Drag, 0, 0⟩] = Outcome.returned false s'
      ∧ s'.dragged = 1 := by
  obtain ⟨s', h1, _, _, _, _, h6, _⟩ := drag_selects_first_match Real.sqrt isSqrt_real
    { readBuffer := []
      writeBuffer := [⟨100, 0, 0, 0⟩, ⟨3, 4, 0, 0⟩, ⟨0, 0, 0, 0⟩]
      width := 500, height := 500, dragged := draggedNone } 0 0
  refine ⟨s', h1, h6 1 ⟨3, 4, 0, 0⟩ rfl (by norm_num [withinRadius, Particle.Radius]) ?_⟩
  intro j p hj hp
  interval_cases j
  simp only [List.getElem?_cons_zero, Option.some.injEq] at hp
  rw [← hp]
  norm_num [withinRadius, Particle.Radius]

/-- C14: handling `Release(x, y)` yields exactly the state obtained by handling
`Move(x, y)` and then setting the dragged index to none, where Move sets the
dragged particle (if the dragged index is within the write buffer) to position
`(x, y)` with velocity `(0, 0)`, leaves every other particle, the buffer
length and the rest of the state unchanged, and changes nothing when no
particle is dragged. -/
theorem release_is_move_then_clear (sqrt : F → F) (s : Logic F) (x y : Int) :
    ∃ s1 : Logic F,
      processMessages sqrt s [⟨MessageType.Move, x, y⟩] = Outcome.returned false s1
      ∧ processMessages sqrt s [⟨MessageType.Release, x, y⟩]
          = Outcome.returned false { s1 with dragged := draggedNone }
      ∧ s1.writeBuffer.length = s.writeBuffer.length
      ∧ (s.dragged < s.writeBuffer.length →
          s1.writeBuffer[s.dragged]? = some ⟨(x : F), (y : F), 0, 0⟩)
      ∧ (∀ j : Nat, j ≠ s.dragged → s1.writeBuffer[j]? = s.writeBuffer[j]?)
      ∧ s1.readBuffer = s.readBuffer
      ∧ s1.dragged = s.dragged
      ∧ s1.width = s.width
      ∧ s1.height = s.height
      ∧ (¬ s.dragged < s.writeBuffer.length → s1 = s) := by
  by_cases hk : s.dragged < s.writeBuffer.length
  · refine ⟨{ s with writeBuffer := s.writeBuffer.set s.dragged ⟨(x : F), (y : F), 0, 0⟩ },
      by rw [processMessages_single, handleMessage_move, if_pos hk],
      by rw [processMessages_single, handleMessage_release, if_pos hk],
      List.length_set _ _ _, fun _ => List.getElem?_set_self hk, ?_, rfl, rfl, rfl, rfl,
      fun h => absurd hk h⟩
    intro j hj
    exact List.getElem?_set_ne (fun e => hj e.symm)
  · exact ⟨s, by rw [processMessages_single, handleMessage_move, if_neg hk],
      by rw [processMessages_single, handleMessage_release, if_neg hk],
      rfl, fun h => absurd h hk, fun _ _ => rfl, rfl, rfl, rfl, rfl, fun _ => rfl⟩

/-! ## Stop and the default branch -/

lemma handleMessage_stop (sqrt : F → F) (s : Logic F) (m : Message)
    (h : m.type = MessageType.Stop) : handleMessage sqrt s m = Handled.stop s := by
  obtain ⟨t, x, y⟩ := m
  simp only at h
  subst h
  rfl

lemma handleMessage_error (sqrt : F → F) (s : Logic F) (m : Message)
    (h : m.type = MessageType.Error) : handleMessage sqrt s m = Handled.exit := by
  obtain ⟨t, x, y⟩ := m
  simp only at h
  subst h
  rfl

/-- Messages in front of a `Stop` are applied and the `Stop` ends the call with
`true` in the state they produced; nothing behind the `Stop` is looked at. -/
lemma processMessages_stop (sqrt : F → F) (pre : List Message) (stop : Message)
    (post : List Message) (s : Logic F) (hstop : stop.type = MessageType.Stop)
    (hpre : ∀ m ∈ pre, m.type ≠ MessageType.Stop ∧ m.type ≠ MessageType.Error) :
    ∃ s' : Logic F, processMessages sqrt s pre = Outcome.returned false s'
      ∧ processMessages sqrt s (pre ++ stop :: post) = Outcome.returned true s'
      ∧ s'.readBuffer = s.readBuffer := by
  induction pre generalizing s with
  | nil =>
    refine ⟨s, rfl, ?_, rfl⟩
    simp only [List.nil_append, processMessages, handleMessage_stop sqrt s stop hstop]
  | cons m ms ih =>
    obtain ⟨s1, e1, r1, _⟩ := handleMessage_next sqrt s m
      (hpre m (List.mem_cons_self _ _)).1 (hpre m (List.mem_cons_self _ _)).2
    obtain ⟨s2, e2, e3, r2⟩ := ih s1 (fun m' hm' => hpre m' (List.mem_cons_of_mem _ hm'))
    refine ⟨s2, ?_, ?_, by rw [r2, r1]⟩
    · simp only [processMessages, e1]
      exact e2
    · simp only [List.cons_append, processMessages, e1]
      exact e3

/-- C15: for a batch of recognised messages that contains a `Stop`, written as
the messages `pre` in front of the first `Stop`, the `Stop`, and the rest
`post`: `processMessages` returns `true` in exactly the state that applying
`pre` in order produces (the `Stop` changes nothing and `post` is not applied),
and the iteration of `run` returns without swapping, the read buffer on exit
being the read buffer of the start of the iteration; `run` itself returns
there. -/
theorem stop_exits_without_swap (sqrt : F → F) (s : Logic F) (pre : List Message)
    (stop : Message) (post : List Message) (rest : List (List Message))
    (hstop : stop.type = MessageType.Stop)
    (hpre : ∀ m ∈ pre, m.type ≠ MessageType.Stop ∧ m.type ≠ MessageType.Error) :
    (∃ s' : Logic F, processMessages sqrt s pre = Outcome.returned false s'
        ∧ processMessages sqrt s (pre ++ stop :: post) = Outcome.returned true s')
      ∧ handleMessage sqrt s stop = Handled.stop s
      ∧ (∃ s'' : Logic F,
          processMessages sqrt (updateParticles sqrt (resizeWrite s)) pre
            = Outcome.returned false s''
          ∧ runIteration sqrt s (pre ++ stop :: post) = Iteration.returned s''
          ∧ run sqrt s ((pre ++ stop :: post) :: rest) = Iteration.returned s''
          ∧ s''.readBuffer = s.readBuffer) := by
  refine ⟨?_, handleMessage_stop sqrt s stop hstop, ?_⟩
  · obtain ⟨s', e1, e2, _⟩ := processMessages_stop sqrt pre stop post s hstop hpre
    exact ⟨s', e1, e2⟩
  · obtain ⟨s'', e1, e2, r⟩ :=
      processMessages_stop sqrt pre stop post (updateParticles sqrt (resizeWrite s)) hstop hpre
    have hi : runIteration sqrt s (pre ++ stop :: post) = Iteration.returned s'' := by
      simp only [runIteration, e2]
    refine ⟨s'', e1, hi, ?_, ?_⟩
    · simp only [run, hi]
    · rw [r]
      rfl

/-- Witness of C15: the batch Resize, Stop, Click on a one-particle state. -/
theorem stop_exits_without_swap_witness :
    (∃ s' : Logic ℝ,
        processMessages Real.sqrt
            { readBuffer := [⟨50, 50, 0, 0⟩], writeBuffer := [⟨50, 50, 0, 0⟩]
              width := 100, height := 100, dragged := draggedNone }
            [⟨MessageType.Resize, 200, 300⟩] = Outcome.returned false s'
        ∧ processMessages Real.sqrt
            { readBuffer := [⟨50, 50, 0, 0⟩], writeBuffer := [⟨50, 50, 0, 0⟩]
              width := 100, height := 100, dragged := draggedNone }
            ([⟨MessageType.Resize, 200, 300⟩] ++ ⟨MessageType.Stop, 0, 0⟩
              :: [⟨MessageType.Click, 50, 50⟩]) = Outcome.returned true s')
      ∧ handleMessage Real.sqrt
          { readBuffer := [⟨50, 50, 0, 0⟩], writeBuffer := [⟨50, 50, 0, 0⟩]
            width := 100, height := 100, dragged := draggedNone } ⟨MessageType.Stop, 0, 0⟩
        = Handled.stop
          ({ readBuffer := [⟨50, 50, 0, 0⟩], writeBuffer := [⟨50, 50, 0, 0⟩]
             width := 100, height := 100, dragged := draggedNone } : Logic ℝ)
      ∧ (∃ s'' : Logic ℝ,
          processMessages Real.sqrt (updateParticles Real.sqrt (resizeWrite
              { readBuffer := [⟨50, 50, 0, 0⟩], writeBuffer := [⟨50, 50, 0, 0⟩]
                width := 100, height := 100, dragged := draggedNone }))
            [⟨MessageType.Resize, 200, 300⟩] = Outcome.returned false s''
          ∧ runIteration Real.sqrt
              { readBuffer := [⟨50, 50, 0, 0⟩], writeBuffer := [⟨50, 50, 0, 0⟩]
                width := 100, height := 100, dragged := draggedNone }
              ([⟨MessageType.Resize, 200, 300⟩] ++ ⟨MessageType.Stop, 0, 0⟩
                :: [⟨MessageType.Click, 50, 50⟩]) = Iteration.returned s''
          ∧ run Real.sqrt
              { readBuffer := [⟨50, 50, 0, 0⟩], writeBuffer := [⟨50, 50, 0, 0⟩]
                width := 100, height := 100, dragged := draggedNone }
              (([⟨MessageType.Resize, 200, 300⟩] ++ ⟨MessageType.Stop, 0, 0⟩
                :: [⟨MessageType.Click, 50, 50⟩]) :: []) = Iteration.returned s''
          ∧ s''.readBuffer = [⟨50, 50, 0, 0⟩]) :=
  stop_exits_without_swap Real.sqrt
    { readBuffer := [⟨50, 50, 0, 0⟩], writeBuffer := [⟨50, 50, 0, 0⟩]
      width := 100, height := 100, dragged := draggedNone }
    [⟨MessageType.Resize, 200, 300⟩] ⟨MessageType.Stop, 0, 0⟩ [⟨MessageType.Click, 50, 50⟩] []
    rfl (by decide)

lemma not_isRecognised_iff (t : MessageType) : ¬ isRecognised t ↔ t = MessageType.Error := by
  cases t <;> simp [isRecognised]

/-- A call of `processMessages` exits exactly when the batch has a message of
kind `Error` with no `Stop` in front of it. -/
lemma processMessages_exited_iff (sqrt : F → F) (batch : List Message) (s : Logic F) :
    processMessages sqrt s batch = Outcome.exited ↔
      ∃ (pre : List Message) (m : Message) (post : List Message),
        batch = pre ++ m :: post ∧ m.type = MessageType.Error
          ∧ ∀ m' ∈ pre, m'.type ≠ MessageType.Stop := by
  constructor
  · intro h
    induction batch generalizing s with
    | nil => simp [processMessages] at h
    | cons m ms ih =>
      by_cases he : m.type = MessageType.Error
      · exact ⟨[], m, ms, rfl, he, fun _ hm => absurd hm (List.not_mem_nil _)⟩
      · by_cases hst : m.type = MessageType.Stop
        · simp [processMessages, handleMessage_stop sqrt s m hst] at h
        · obtain ⟨s1, e1, _, _⟩ := handleMessage_next sqrt s m hst he
          simp only [processMessages, e1] at h
          obtain ⟨pre, m0, post, hb, hm0, hpre⟩ := ih s1 h
          refine ⟨m :: pre, m0, post, by rw [hb]; rfl, hm0, ?_⟩
          intro m' hm'
          rcases List.mem_cons.mp hm' with e | e
          · rw [e]
            exact hst
          · exact hpre m' e
  · rintro ⟨pre, m, post, hb, hm, hpre⟩
    subst hb
    induction pre generalizing s with
    | nil => simp [processMessages, handleMessage_error sqrt s m hm]
    | cons a pre ih =>
      by_cases he : a.type = MessageType.Error
      · simp [processMessages, handleMessage_error sqrt s a he]
      · obtain ⟨s1, e1, _, _⟩ := handleMessage_next sqrt s a
          (hpre a (List.mem_cons_self _ _)) he
        simp only [List.cons_append, processMessages, e1]
        exact ih s1 (fun m' hm' => hpre m' (List.mem_cons_of_mem _ hm'))

/-- C16: `processMessages` ends the process (`std::exit`) if and only if a
message whose kind is none of Click, Drag, Move, Release, Resize, Stop is
reached before any `Stop` in the batch; the default-constructed `Message` is
such a message and makes the call exit; every batch made only of the six
recognised kinds is handled and the call returns. -/
theorem processMessages_fatal_iff (sqrt : F → F) (s : Logic F) (batch : List Message) :
    (processMessages sqrt s batch = Outcome.exited ↔
        ∃ (pre : List Message) (m : Message) (post : List Message),
          batch = pre ++ m :: post ∧ ¬ isRecognised m.type
            ∧ ∀ m' ∈ pre, m'.type ≠ MessageType.Stop)
      ∧ ¬ isRecognised Message.default.type
      ∧ processMessages sqrt s [Message.default] = Outcome.exited
      ∧ ((∀ m ∈ batch, isRecognised m.type) →
          ∃ (b : Bool) (s' : Logic F), processMessages sqrt s batch = Outcome.returned b s') := by
  have hiff : processMessages sqrt s batch = Outcome.exited ↔
      ∃ (pre : List Message) (m : Message) (post : List Message),
        batch = pre ++ m :: post ∧ ¬ isRecognised m.type
          ∧ ∀ m' ∈ pre, m'.type ≠ MessageType.Stop := by
    rw [processMessages_exited_iff]
    constructor
    · rintro ⟨pre, m, post, h1, h2, h3⟩
      exact ⟨pre, m, post, h1, (not_isRecognised_iff _).mpr h2, h3⟩
    · rintro ⟨pre, m, post, h1, h2, h3⟩
      exact ⟨pre, m, post, h1, (not_isRecognised_iff _).mp h2, h3⟩
  refine ⟨hiff, (not_isRecognised_iff _).mpr rfl, ?_, ?_⟩
  · rw [processMessages_single, handleMessage_error sqrt s _ rfl]
  · intro hall
    cases h : processMessages sqrt s batch with
    | returned b s' => exact ⟨b, s', rfl⟩
    | exited =>
      obtain ⟨pre, m, post, hb, hm, _⟩ := hiff.mp h
      exact absurd (hall m (by rw [hb]; simp)) hm

/-! ## Range of the dragged index -/

/-- C17 (as amended): for every state in which the dragged index is none or
smaller than the length of the write buffer, and every recognised message, the
state after handling the message again has its dragged index equal to none or
smaller than the (possibly changed) length of the write buffer, except when the
message is a Click that removes a particle while the dragged index is the last
index of the write buffer: a removing Click keeps the range whenever the
dragged index is none or `dragged + 1` is smaller than the length. -/
theorem dragged_range_preserved (sqrt : F → F) (s : Logic F) (m : Message)
    (hinv : draggedInRange s) (hm : isRecognised m.type)
    (hclick : m.type = MessageType.Click →
      findParticle sqrt s m.x m.y < s.writeBuffer.length →
      s.dragged = draggedNone ∨ s.dragged + 1 < s.writeBuffer.length) :
    ∃ (b : Bool) (s' : Logic F),
      processMessages sqrt s [m] = Outcome.returned b s' ∧ draggedInRange s' := by
  obtain ⟨t, x, y⟩ := m
  rw [processMessages_single]
  cases t with
  | Click =>
    rw [handleMessage_click]
    by_cases hf : findParticle sqrt s x y < s.writeBuffer.length
    · rw [if_pos hf]
      refine ⟨false, _, rfl, ?_⟩
      rcases hclick rfl hf with h | h
      · exact Or.inl h
      · refine Or.inr ?_
        simp only [List.length_eraseIdx_of_lt hf]
        omega
    · rw [if_neg hf]
      refine ⟨false, _, rfl, ?_⟩
      rcases hinv with h | h
      · exact Or.inl h
      · refine Or.inr ?_
        simp only [List.length_append, List.length_singleton]
        omega
  | Drag =>
    rw [handleMessage_drag]
    refine ⟨false, _, rfl, ?_⟩
    by_cases hf : findParticle sqrt s x y < s.writeBuffer.length
    · exact Or.inr (by simp only [if_pos hf]; exact hf)
    · simp only [draggedInRange, if_neg hf]
      exact hinv
  | Move =>
    rw [handleMessage_move]
    refine ⟨false, _, rfl, ?_⟩
    by_cases hk : s.dragged < s.writeBuffer.length
    · rw [if_pos hk]
      exact Or.inr (by simp only [List.length_set]; exact hk)
    · rw [if_neg hk]
      exact hinv
  | Release =>
    rw [handleMessage_release]
    exact ⟨false, _, rfl, Or.inl rfl⟩
  | Resize => exact ⟨false, _, rfl, hinv⟩
  | Stop => exact ⟨true, _, rfl, hinv⟩
  | Error =>
    exact absurd hm ((not_isRecognised_iff _).mpr rfl)

/-- Witness of C17 (as amended): particle 0 of two is the dragged one and a
Click at `(80, 80)`, where particle 1 lies, is handled. -/
theorem dragged_range_preserved_witness :
    ∃ (b : Bool) (s' : Logic ℝ),
      processMessages Real.sqrt
          { readBuffer := [], writeBuffer := [⟨50, 50, 0, 0⟩, ⟨80, 80, 0, 0⟩]
            width := 100, height := 100, dragged := 0 }
          [⟨MessageType.Click, 80, 80⟩] = Outcome.returned b s'
        ∧ draggedInRange s' :=
  dragged_range_preserved Real.sqrt
    { readBuffer := [], writeBuffer := [⟨50, 50, 0, 0⟩, ⟨80, 80, 0, 0⟩]
      width := 100, height := 100, dragged := 0 }
    ⟨MessageType.Click, 80, 80⟩ (Or.inr (by decide)) (Or.inl rfl)
    (fun _ _ => Or.inr (by decide))

/-- Counterexample to C17 as stated: the only particle, at `(50, 50)`, is the
dragged one (index 0, within the length 1); the recognised message Click at
`(50, 50)` removes it and leaves the dragged index at 0, which is neither none
nor smaller than the new length 0. -/
theorem dragged_range_counterexample :
    draggedInRange ({ readBuffer := [], writeBuffer := [⟨50, 50, 0, 0⟩]
                      width := 100, height := 100, dragged := 0 } : Logic ℝ)
      ∧ isRecognised MessageType.Click
      ∧ processMessages Real.sqrt
          { readBuffer := [], writeBuffer := [⟨50, 50, 0, 0⟩]
            width := 100, height := 100, dragged := 0 }
          [⟨MessageType.Click, 50, 50⟩]
        = Outcome.returned false
            ({ readBuffer := [], writeBuffer := []
               width := 100, height := 100, dragged := 0 } : Logic ℝ)
      ∧ ¬ draggedInRange ({ readBuffer := [], writeBuffer := []
                            width := 100, height := 100, dragged := 0 } : Logic ℝ) := by
  have hF : findParticle Real.sqrt
      ({ readBuffer := [], writeBuffer := [⟨50, 50, 0, 0⟩]
         width := 100, height := 100, dragged := 0 } : Logic ℝ) 50 50 = 0 :=
    findParticle_eq_of_least Real.sqrt isSqrt_real _ 50 50 0 ⟨50, 50, 0, 0⟩ rfl
      (by norm_num [withinRadius, Particle.Radius])
      (fun j p hj => absurd hj (Nat.not_lt_zero j))
  refine ⟨Or.inr (by decide), Or.inl rfl, ?_, ?_⟩
  · rw [processMessages_single]
    simp only [handleMessage, hF]
    rfl
  · rintro (h | h)
    · exact absurd h (by decide)
    · exact absurd h (by decide)

/-! ## Click as a toggle -/

lemma eraseIdx_concat_length {α : Type} (l : List α) (a : α) :
    (l ++ [a]).eraseIdx l.length = l := by
  rw [List.eraseIdx_append_of_length_le (le_refl _)]
  simp

/-- C18: for every state and point `(x, y)` with no particle of the write
buffer within `Radius` of it, the first `Click(x, y)` appends a particle at
`(x, y)`, the second `Click(x, y)` in succession finds that particle and
removes it, and the two together return exactly the original state: the
original write buffer, with dragged index and bounds unchanged. -/
theorem click_twice_restores (sqrt : F → F) (hs : IsSqrt sqrt) (s : Logic F) (x y : Int)
    (hnone : ∀ (j : Nat) (p : Particle F), s.writeBuffer[j]? = some p →
      ¬ withinRadius p x y) :
    ∃ s1 : Logic F,
      processMessages sqrt s [⟨MessageType.Click, x, y⟩] = Outcome.returned false s1
      ∧ s1.writeBuffer = s.writeBuffer ++ [⟨(x : F), (y : F), 0, 0⟩]
      ∧ findParticle sqrt s1 x y = s.writeBuffer.length
      ∧ processMessages sqrt s1 [⟨MessageType.Click, x, y⟩] = Outcome.returned false s
      ∧ processMessages sqrt s [⟨MessageType.Click, x, y⟩, ⟨MessageType.Click, x, y⟩]
          = Outcome.returned false s := by
  have hf : findParticle sqrt s x y = s.writeBuffer.length := by
    obtain ⟨h1, _, h3⟩ := findParticle_scan sqrt hs s x y
    by_contra hne
    obtain ⟨p, hp, hpn⟩ := h3 (lt_of_le_of_ne h1 hne)
    exact hnone _ p hp hpn
  have h1 : handleMessage sqrt s ⟨MessageType.Click, x, y⟩
      = Handled.next { s with writeBuffer := s.writeBuffer ++ [⟨(x : F), (y : F), 0, 0⟩] } := by
    simp only [handleMessage, hf, lt_irrefl, if_false]
  have hf1 : findParticle sqrt
      { s with writeBuffer := s.writeBuffer ++ [⟨(x : F), (y : F), 0, 0⟩] } x y
      = s.writeBuffer.length := by
    apply findParticle_eq_of_least sqrt hs _ x y s.writeBuffer.length ⟨(x : F), (y : F), 0, 0⟩
    · exact List.getElem?_concat_length _ _
    · simp only [withinRadius, sub_self]
      norm_num [Particle.Radius]
    · intro j p hj hp
      simp only [List.getElem?_append_left hj] at hp
      exact hnone j p hp
  have h2 : handleMessage sqrt
      { s with writeBuffer := s.writeBuffer ++ [⟨(x : F), (y : F), 0, 0⟩] }
      ⟨MessageType.Click, x, y⟩ = Handled.next s := by
    simp only [handleMessage, hf1, List.length_append, List.length_singleton,
      Nat.lt_succ_self, if_true, eraseIdx_concat_length]
  refine ⟨{ s with writeBuffer := s.writeBuffer ++ [⟨(x : F), (y : F), 0, 0⟩] },
    ?_, rfl, hf1, ?_, ?_⟩
  · rw [processMessages_single, h1]
  · rw [processMessages_single, h2]
  · simp only [processMessages, h1, h2]

/-- Witness of C18: two Clicks at `(50, 50)` with the only particle at
`(3, 4)`, over the reals. -/
theorem click_twice_restores_witness :
    processMessages Real.sqrt
        { readBuffer := [], writeBuffer := [⟨3, 4, 0, 0⟩]
          width := 100, height := 100, dragged := 0 }
        [⟨MessageType.Click, 50, 50⟩, ⟨MessageType.Click, 50, 50⟩]
      = Outcome.returned false
          ({ readBuffer := [], writeBuffer := [⟨3, 4, 0, 0⟩]
             width := 100, height := 100, dragged := 0 } : Logic ℝ) := by
  obtain ⟨_, _, _, _, _, h⟩ := click_twice_restores Real.sqrt isSqrt_real
    { readBuffer := [], writeBuffer := [⟨3, 4, 0, 0⟩]
      width := 100, height := 100, dragged := 0 } 50 50
    (by
      intro j p hp
      cases j with
      | zero =>
        simp only [List.getElem?_cons_zero, Option.some.injEq] at hp
        rw [← hp]
        norm_num [withinRadius, Particle.Radius]
      | succ j => simp at hp)
  exact h

/-! ## Long-range behaviour of the force law -/

/-- Squared magnitude of the acceleration accumulated for each particle of a
two-particle system above the distance clamp. -/
lemma two_particle_accel_sq (sqrt : F → F) (hs : IsSqrt sqrt) (p q : Particle F)
    (r : F) (hr : r = sqrt ((q.x - p.x) * (q.x - p.x) + (q.y - p.y) * (q.y - p.y)))
    (hmin : minDistance ≤ r) :
    (accel sqrt [p, q] draggedNone 0 p).1 ^ 2 + (accel sqrt [p, q] draggedNone 0 p).2 ^ 2
        = (1 / r - 1 / r ^ 2) ^ 2
      ∧ (accel sqrt [p, q] draggedNone 1 q).1 ^ 2 + (accel sqrt [p, q] draggedNone 1 q).2 ^ 2
        = (1 / r - 1 / r ^ 2) ^ 2 := by
  have hpos : 0 < r := lt_of_lt_of_le minDistance_pos hmin
  have hne : r ≠ 0 := ne_of_gt hpos
  have hsq : r * r = (q.x - p.x) * (q.x - p.x) + (q.y - p.y) * (q.y - p.y) := by
    rw [hr]
    exact (hs _ (add_nonneg (mul_self_nonneg _) (mul_self_nonneg _))).2
  have hr' : r = sqrt ((p.x - q.x) * (p.x - q.x) + (p.y - q.y) * (p.y - q.y)) := by
    rw [sqrt_swap sqrt p q]
    exact hr
  have key : ∀ dx dy : F, r * r = dx * dx + dy * dy →
      ((1 / r ^ 2 - 1 / r ^ 3) * dx) ^ 2 + ((1 / r ^ 2 - 1 / r ^ 3) * dy) ^ 2
        = (1 / r - 1 / r ^ 2) ^ 2 := by
    intro dx dy h
    have e : ((1 / r ^ 2 - 1 / r ^ 3) * dx) ^ 2 + ((1 / r ^ 2 - 1 / r ^ 3) * dy) ^ 2
        = (1 / r ^ 2 - 1 / r ^ 3) ^ 2 * (dx * dx + dy * dy) := by ring
    rw [e, ← h]
    field_simp
    ring
  constructor
  · rw [accel_two_zero, forceTerm_eq_scale sqrt p q (hr ▸ hmin), ← hr]
    exact key _ _ hsq
  · rw [accel_two_one, forceTerm_eq_scale sqrt q p (hr' ▸ hmin), ← hr']
    exact key _ _ (by rw [hsq]; ring)

/-- Size of `1/r - 1/r^2` beyond `r = 1`: positive, at most `1/4`, below `1/r`. -/
lemma attraction_bound (r : F) (h : 1 < r) :
    0 < 1 / r - 1 / r ^ 2 ∧ 1 / r - 1 / r ^ 2 ≤ 1 / 4 ∧ 1 / r - 1 / r ^ 2 < 1 / r := by
  have hpos : 0 < r := lt_trans zero_lt_one h
  have h2 : 0 < r ^ 2 := pow_pos hpos 2
  have he : 1 / r - 1 / r ^ 2 = (r - 1) / r ^ 2 := by
    field_simp
    ring
  refine ⟨?_, ?_, ?_⟩
  · rw [he]
    exact div_pos (by linarith) h2
  · rw [he, div_le_iff₀ h2]
    nlinarith [sq_nonneg (r - 2)]
  · have : 0 < 1 / r ^ 2 := div_pos one_pos h2
    linarith

/-- C19 (as amended): in a two-particle system the long-range attraction is
bounded: for every separation `r > 1` the magnitude of the attractive
acceleration accumulated by `updateParticles` for each particle is
`1/r - 1/r^2` (its square is the squared length of the acceleration), which is
positive, at most `1/4` and smaller than `1/r`. -/
theorem attraction_bounded (sqrt : F → F) (hs : IsSqrt sqrt) (p q : Particle F)
    (r : F) (hr : r = sqrt ((q.x - p.x) * (q.x - p.x) + (q.y - p.y) * (q.y - p.y)))
    (h1 : 1 < r) :
    (accel sqrt [p, q] draggedNone 0 p).1 ^ 2 + (accel sqrt [p, q] draggedNone 0 p).2 ^ 2
        = (1 / r - 1 / r ^ 2) ^ 2
      ∧ (accel sqrt [p, q] draggedNone 1 q).1 ^ 2 + (accel sqrt [p, q] draggedNone 1 q).2 ^ 2
        = (1 / r - 1 / r ^ 2) ^ 2
      ∧ 0 < 1 / r - 1 / r ^ 2
      ∧ 1 / r - 1 / r ^ 2 ≤ 1 / 4
      ∧ 1 / r - 1 / r ^ 2 < 1 / r := by
  have hmin : minDistance ≤ r := by
    have : (minDistance : F) ≤ 1 := by
      unfold minDistance
      norm_num
    exact le_trans this (le_of_lt h1)
  obtain ⟨a0, a1⟩ := two_particle_accel_sq sqrt hs p q r hr hmin
  obtain ⟨b0, b1, b2⟩ := attraction_bound r h1
  exact ⟨a0, a1, b0, b1, b2⟩

/-- Witness of C19 (as amended): particles at `(0, 0)` and `(3, 4)`,
separation `5`, over the reals. -/
theorem attraction_bounded_witness :
    (accel Real.sqrt [⟨0, 0, 0, 0⟩, ⟨3, 4, 0, 0⟩] draggedNone 0 ⟨0, 0, 0, 0⟩).1 ^ 2
        + (accel Real.sqrt [⟨0, 0, 0, 0⟩, ⟨3, 4, 0, 0⟩] draggedNone 0 ⟨0, 0, 0, 0⟩).2 ^ 2
        = ((1 : ℝ) / 5 - 1 / 5 ^ 2) ^ 2
      ∧ (accel Real.sqrt [⟨0, 0, 0, 0⟩, ⟨3, 4, 0, 0⟩] draggedNone 1 ⟨3, 4, 0, 0⟩).1 ^ 2
        + (accel Real.sqrt [⟨0, 0, 0, 0⟩, ⟨3, 4, 0, 0⟩] draggedNone 1 ⟨3, 4, 0, 0⟩).2 ^ 2
        = ((1 : ℝ) / 5 - 1 / 5 ^ 2) ^ 2
      ∧ (0 : ℝ) < 1 / 5 - 1 / 5 ^ 2
      ∧ (1 : ℝ) / 5 - 1 / 5 ^ 2 ≤ 1 / 4
      ∧ (1 : ℝ) / 5 - 1 / 5 ^ 2 < 1 / 5 :=
  attraction_bounded Real.sqrt isSqrt_real ⟨0, 0, 0, 0⟩ ⟨3, 4, 0, 0⟩ 5
    real_sqrt_three_four (by norm_num)

/-- Counterexample to C19 as stated: the bound `M = 1` is exceeded at no
separation `r > 1`; it is not true that for every bound there is a separation
`r > 1` at which the magnitude of the acceleration accumulated for a particle
of a two-particle system exceeds it. -/
theorem attraction_unbounded_counterexample :
    ¬ ∀ M : ℝ, ∃ p q : Particle ℝ,
        1 < Real.sqrt ((q.x - p.x) * (q.x - p.x) + (q.y - p.y) * (q.y - p.y))
          ∧ M < Real.sqrt
              ((accel Real.sqrt [p, q] draggedNone 0 p).1 ^ 2
                + (accel Real.sqrt [p, q] draggedNone 0 p).2 ^ 2) := by
  intro h
  obtain ⟨p, q, h1, hM⟩ := h 1
  have hmin : (minDistance : ℝ)
      ≤ Real.sqrt ((q.x - p.x) * (q.x - p.x) + (q.y - p.y) * (q.y - p.y)) := by
    have : (minDistance : ℝ) ≤ 1 := by
      unfold minDistance
      norm_num
    exact le_trans this (le_of_lt h1)
  obtain ⟨a0, _⟩ := two_particle_accel_sq Real.sqrt isSqrt_real p q _ rfl hmin
  obtain ⟨b0, b1, _⟩ := attraction_bound _ h1
  rw [a0, Real.sqrt_sq (le_of_lt b0)] at hM
  linarith

/-! ## Pairwise forces -/

/-- Force term of the pair `(p, q)` is the negation of that of `(q, p)`. -/
lemma forceTerm_antisymm (sqrt : F → F) (p q : Particle F) :
    forceTerm sqrt p q = (-(forceTerm sqrt q p).1, -(forceTerm sqrt q p).2) := by
  unfold forceTerm
  simp only [sqrt_swap sqrt p q]
  ext
  · simp only
    rw [← neg_sub q.x p.x]
    ring
  · simp only
    rw [← neg_sub q.y p.y]
    ring

lemma pairTerm_antisymm (sqrt : F → F) (read : List (Particle F)) (dragged i j : Nat) :
    (pairTerm sqrt read dragged i j).1 = -(pairTerm sqrt read dragged j i).1
      ∧ (pairTerm sqrt read dragged i j).2 = -(pairTerm sqrt read dragged j i).2 := by
  unfold pairTerm
  by_cases h : i = dragged ∨ j = dragged ∨ i = j
  · have h' : j = dragged ∨ i = dragged ∨ j = i := by
      rcases h with h | h | h
      · exact Or.inr (Or.inl h)
      · exact Or.inl h
      · exact Or.inr (Or.inr h.symm)
    rw [if_pos h, if_pos h']
    simp
  · have h' : ¬ (j = dragged ∨ i = dragged ∨ j = i) := by
      rintro (h1 | h1 | h1)
      · exact h (Or.inr (Or.inl h1))
      · exact h (Or.inl h1)
      · exact h (Or.inr (Or.inr h1.symm))
    rw [if_neg h, if_neg h']
    cases hi : read[i]? with
    | none => cases hj : read[j]? <;> simp
    | some p1 =>
      cases hj : read[j]? with
      | none => simp
      | some p2 =>
        simp only
        rw [forceTerm_antisymm sqrt p1 p2]
        simp

lemma accelTerm_eq_pairTerm (sqrt : F → F) (read : List (Particle F)) (dragged i j : Nat)
    (p : Particle F) (hd : i ≠ dragged) (hp : read[i]? = some p) :
    accelTerm sqrt read dragged i p j = pairTerm sqrt read dragged i j := by
  unfold accelTerm pairTerm
  by_cases h : j = dragged ∨ i = j
  · have h' : i = dragged ∨ j = dragged ∨ i = j := Or.inr h
    rw [if_pos h, if_pos h']
  · have h' : ¬ (i = dragged ∨ j = dragged ∨ i = j) := by
      rintro (h1 | h1)
      · exact hd h1
      · exact h h1
    rw [if_neg h, if_neg h', hp]
    cases read[j]? <;> rfl

/-- Double sum of an antisymmetric family vanishes. -/
lemma sum_antisymm (n : Nat) (G : Nat → Nat → F) (h : ∀ i j : Nat, G i j = -G j i) :
    ∑ i ∈ Finset.range n, ∑ j ∈ Finset.range n, G i j = 0 := by
  have e1 : ∑ i ∈ Finset.range n, ∑ j ∈ Finset.range n, G i j
      = ∑ i ∈ Finset.range n, ∑ j ∈ Finset.range n, -G j i :=
    Finset.sum_congr rfl (fun i _ => Finset.sum_congr rfl (fun j _ => h i j))
  have e2 : ∑ i ∈ Finset.range n, ∑ j ∈ Finset.range n, -G j i
      = -∑ i ∈ Finset.range n, ∑ j ∈ Finset.range n, G i j := by
    rw [Finset.sum_comm]
    simp only [Finset.sum_neg_distrib]
  linarith

/-- Sum over the non-dragged particles of the accumulated accelerations, as a
double sum of pair terms over the indices. -/
lemma accel_total_eq (sqrt : F → F) (read : List (Particle F)) (dragged : Nat) :
    ∑ i ∈ (Finset.univ : Finset (Fin read.length)).filter (fun i => i.val ≠ dragged),
          (accel sqrt read dragged i.val (read.get i)).1
        = ∑ i ∈ Finset.range read.length, ∑ j ∈ Finset.range read.length,
            (pairTerm sqrt read dragged i j).1
      ∧ ∑ i ∈ (Finset.univ : Finset (Fin read.length)).filter (fun i => i.val ≠ dragged),
          (accel sqrt read dragged i.val (read.get i)).2
        = ∑ i ∈ Finset.range read.length, ∑ j ∈ Finset.range read.length,
            (pairTerm sqrt read dragged i j).2 := by
  have hzero : ∀ j : Nat, pairTerm sqrt read dragged dragged j = (0, 0) := by
    intro j
    unfold pairTerm
    rw [if_pos (Or.inl rfl)]
  constructor
  · rw [Finset.sum_filter,
      Finset.sum_range (fun i => ∑ j ∈ Finset.range read.length,
        (pairTerm sqrt read dragged i j).1)]
    apply Finset.sum_congr rfl
    intro i _
    by_cases hd : i.val ≠ dragged
    · rw [if_pos hd]
      unfold accel
      rw [accel_foldl]
      simp only [zero_add]
      apply Finset.sum_congr rfl
      intro j _
      rw [accelTerm_eq_pairTerm sqrt read dragged i.val j (read.get i) hd
        (List.getElem?_eq_getElem i.2)]
    · rw [if_neg hd]
      have hd' : i.val = dragged := not_not.mp hd
      rw [hd']
      simp [hzero]
  · rw [Finset.sum_filter,
      Finset.sum_range (fun i => ∑ j ∈ Finset.range read.length,
        (pairTerm sqrt read dragged i j).2)]
    apply Finset.sum_congr rfl
    intro i _
    by_cases hd : i.val ≠ dragged
    · rw [if_pos hd]
      unfold accel
      rw [accel_foldl]
      simp only [zero_add]
      apply Finset.sum_congr rfl
      intro j _
      rw [accelTerm_eq_pairTerm sqrt read dragged i.val j (read.get i) hd
        (List.getElem?_eq_getElem i.2)]
    · rw [if_neg hd]
      have hd' : i.val = dragged := not_not.mp hd
      rw [hd']
      simp [hzero]

/-- C20: pairwise forces are equal and opposite.  The term that the loop body
adds for the pair `(p, q)` is the exact negation of the term for `(q, p)`;
for coincident particles the term is exactly `(0, 0)` and the divisor
`max(r, 1e-6)` is always positive (no division by zero); hence, for every read
buffer and dragged index, the sum over all non-dragged particles of the
accelerations accumulated by `updateParticles` is `(0, 0)`. -/
theorem pairwise_forces_cancel (sqrt : F → F) (read : List (Particle F)) (dragged : Nat) :
    (∀ p q : Particle F,
        forceTerm sqrt p q = (-(forceTerm sqrt q p).1, -(forceTerm sqrt q p).2))
      ∧ (∀ p q : Particle F, p.x = q.x → p.y = q.y → forceTerm sqrt p q = (0, 0))
      ∧ (∀ p q : Particle F,
          0 < max (sqrt ((q.x - p.x) * (q.x - p.x) + (q.y - p.y) * (q.y - p.y))) minDistance)
      ∧ ∑ i ∈ (Finset.univ : Finset (Fin read.length)).filter (fun i => i.val ≠ dragged),
          (accel sqrt read dragged i.val (read.get i)).1 = 0
      ∧ ∑ i ∈ (Finset.univ : Finset (Fin read.length)).filter (fun i => i.val ≠ dragged),
          (accel sqrt read dragged i.val (read.get i)).2 = 0 := by
  refine ⟨forceTerm_antisymm sqrt, ?_, ?_, ?_, ?_⟩
  · intro p q hx hy
    unfold forceTerm
    simp [hx, hy]
  · intro p q
    exact lt_of_lt_of_le minDistance_pos (le_max_right _ _)
  · rw [(accel_total_eq sqrt read dragged).1]
    exact sum_antisymm _ _ (fun i j => (pairTerm_antisymm sqrt read dragged i j).1)
  · rw [(accel_total_eq sqrt read dragged).2]
    exact sum_antisymm _ _ (fun i j => (pairTerm_antisymm sqrt read dragged i j).2)

end NBody
